import Mathlib

/-!
Verification development for the symbolic circuit solver of `circuit.py`
(module `circuit`, revision `26/03/2018-D`).

The solver is embedded shallowly:

* sympy expressions become the inductive `Expr` (symbols are their name
  strings; `Expr.eqE` models `sympy.Eq`; a plain expression in the
  equation list is implicitly `= 0`);
* the circuit object becomes the structure `Circuit`, component records
  become `Comp` (mirroring the keys `k`, `n`, `n1`, `n2`, `v`, `sy`,
  `isy`, `ctr` of the Python dictionaries);
* the solving pipeline of `solve()` becomes a sequence of functions over
  `SState` in the `Except Err` monad, where `Err.circuitEx` models the
  module's `circuitEx` exception and `Err.keyError` models Python's
  builtin `KeyError` (raised by `set.remove` on a missing element);
* Python `dict`s become association lists updated by prepending (lookup
  finds the newest entry, matching dict overwrite semantics);
* the Python `set` of unknowns becomes an insertion-ordered duplicate-free
  list: `insertU` is a no-op on a present element, `removeU` raises
  `KeyError` on an absent one, exactly like `set.add` / `set.remove`.

Node identifiers are integers with `0` the ground node, as in every use
of the module.
-/

/-- Errors observable from the module: its own `circuitEx` exception
(carrying the message) and Python's builtin `KeyError`. -/
inductive Err where
  | circuitEx : String → Err
  | keyError : Err
deriving DecidableEq, Repr

/-- Shallow embedding of the sympy expressions the solver builds: rational
constants, named symbols, the four arithmetic operations, and `sympy.Eq`
(`eqE`).  Numeric evaluation is over `ℚ`. -/
inductive Expr where
  | const : ℚ → Expr
  | sym : String → Expr
  | add : Expr → Expr → Expr
  | sub : Expr → Expr → Expr
  | mul : Expr → Expr → Expr
  | div : Expr → Expr → Expr
  | eqE : Expr → Expr → Expr
deriving DecidableEq, Repr

/-- Structural substitution `e.subs(old, new)`: replace every subterm
equal to `old` by `new`.  The solver only ever substitutes a symbol or
(after a current-probe elimination) the literal `0`. -/
def Expr.subsE (e old new : Expr) : Expr :=
  if e = old then new else
    match e with
    | .add a b => .add (a.subsE old new) (b.subsE old new)
    | .sub a b => .sub (a.subsE old new) (b.subsE old new)
    | .mul a b => .mul (a.subsE old new) (b.subsE old new)
    | .div a b => .div (a.subsE old new) (b.subsE old new)
    | .eqE a b => .eqE (a.subsE old new) (b.subsE old new)
    | e => e

/-- Evaluate an expression under an assignment of rationals to symbols
(division is Lean's total division on `ℚ`; `eqE` is never evaluated as a
number, it only occurs at the top of an equation). -/
def Expr.evalE (σ : String → ℚ) : Expr → ℚ
  | .const q => q
  | .sym s => σ s
  | .add a b => a.evalE σ + b.evalE σ
  | .sub a b => a.evalE σ - b.evalE σ
  | .mul a b => a.evalE σ * b.evalE σ
  | .div a b => a.evalE σ / b.evalE σ
  | .eqE a b => a.evalE σ - b.evalE σ

/-- An equation holds under `σ`: an `Eq` object asserts its two sides
equal, any other expression asserts itself equal to `0` (exactly how
`sympy.solve` reads the equation list). -/
def Expr.holds (σ : String → ℚ) : Expr → Prop
  | .eqE a b => a.evalE σ = b.evalE σ
  | e => e.evalE σ = 0

instance (σ : String → ℚ) (e : Expr) : Decidable (e.holds σ) := by
  unfold Expr.holds; cases e <;> infer_instance

/-- A component record: the dictionary built by the `add*` methods, with
keys `k` (kind tag), `n` (name), `n1`, `n2` (endpoints), `v` (optional
value), `sy` (defining symbol), and — only for voltage sources — `isy`
(branch-current symbol); controlled sources store their controller probe's
symbol (`ctr`; the Python code stores the whole controller record but only
ever reads its `sy` entry). -/
structure Comp where
  k : String
  n : String
  n1 : ℤ
  n2 : ℤ
  v : Option ℚ
  sy : String
  isy : Option String
  ctr : Option String
deriving DecidableEq, Repr

/-- The circuit object: component registry, value-substitution dictionary,
probe registry `meas` (probe name ↦ probe symbol), and the two symbol
tables `name` (symbol ↦ name) and `symbol` (name ↦ symbol).  Symbols are
identified with their name strings, as `sympy.Symbol(name)` is determined
by `name`. -/
structure Circuit where
  components : List Comp
  subsDic : List (String × ℚ)
  meas : List (String × String)
  nameT : List (String × String)
  symbolT : List (String × String)
deriving DecidableEq, Repr

/-- A freshly constructed circuit (`circuit.__init__`). -/
def Circuit.empty : Circuit := ⟨[], [], [], [], []⟩

/-- Add the optional value of a component to the substitution
dictionary (`if value != None: self.subsDic[sy] = value`). -/
def addSubs (d : List (String × ℚ)) (sy : String) : Option ℚ → List (String × ℚ)
  | none => d
  | some q => (sy, q) :: d

/-- `addR`: append a resistor record and register its symbol. -/
def Circuit.addR (c : Circuit) (name : String) (node1 node2 : ℤ) (value : Option ℚ) : Circuit :=
  { c with
    components := c.components ++ [⟨"r", name, node1, node2, value, name, none, none⟩]
    symbolT := (name, name) :: c.symbolT
    subsDic := addSubs c.subsDic name value }

/-- `addC`: append a capacitor record and register its symbol. -/
def Circuit.addC (c : Circuit) (name : String) (node1 node2 : ℤ) (value : Option ℚ) : Circuit :=
  { c with
    components := c.components ++ [⟨"c", name, node1, node2, value, name, none, none⟩]
    symbolT := (name, name) :: c.symbolT
    subsDic := addSubs c.subsDic name value }

/-- `addL`: append an inductor record and register its symbol. -/
def Circuit.addL (c : Circuit) (name : String) (node1 node2 : ℤ) (value : Option ℚ) : Circuit :=
  { c with
    components := c.components ++ [⟨"l", name, node1, node2, value, name, none, none⟩]
    symbolT := (name, name) :: c.symbolT
    subsDic := addSubs c.subsDic name value }

/-- `addV`: append an independent-voltage-source record; besides the
defining symbol it creates the branch-current symbol `"i" ++ name` and
registers it in both symbol tables. -/
def Circuit.addV (c : Circuit) (name : String) (node1 node2 : ℤ) (value : Option ℚ) : Circuit :=
  { c with
    components := c.components ++ [⟨"vs", name, node1, node2, value, name, some ("i" ++ name), none⟩]
    nameT := ("i" ++ name, "i" ++ name) :: c.nameT
    symbolT := ("i" ++ name, "i" ++ name) :: (name, name) :: c.symbolT
    subsDic := addSubs c.subsDic name value }

/-- `addI`: append an independent-current-source record; only the defining
symbol is registered (no branch-current symbol is created). -/
def Circuit.addI (c : Circuit) (name : String) (node1 node2 : ℤ) (value : Option ℚ) : Circuit :=
  { c with
    components := c.components ++ [⟨"is", name, node1, node2, value, name, none, none⟩]
    symbolT := (name, name) :: c.symbolT
    subsDic := addSubs c.subsDic name value }

/-- `addVM`: append a voltage-probe record; registered in both symbol
tables and in the probe registry `meas`. -/
def Circuit.addVM (c : Circuit) (name : String) (node1 node2 : ℤ) : Circuit :=
  { c with
    components := c.components ++ [⟨"vm", name, node1, node2, none, name, none, none⟩]
    nameT := (name, name) :: c.nameT
    symbolT := (name, name) :: c.symbolT
    meas := (name, name) :: c.meas }

/-- `addIM`: append a current-probe record; registered in both symbol
tables and in the probe registry `meas`. -/
def Circuit.addIM (c : Circuit) (name : String) (node1 node2 : ℤ) : Circuit :=
  { c with
    components := c.components ++ [⟨"im", name, node1, node2, none, name, none, none⟩]
    nameT := (name, name) :: c.nameT
    symbolT := (name, name) :: c.symbolT
    meas := (name, name) :: c.meas }

/-- `addCVS`: the controller name must already be registered in `meas`,
otherwise `circuitEx('CVS controller must be defined previously')` is
raised before any state is touched; on success the record carries the
controller's symbol and the branch-current symbol `"i" ++ name`. -/
def Circuit.addCVS (c : Circuit) (name : String) (node1 node2 : ℤ) (cont : String)
    (value : Option ℚ) : Except Err Circuit :=
  match c.meas.lookup cont with
  | none => .error (.circuitEx "CVS controller must be defined previously")
  | some ctr => .ok
      { c with
        components :=
          c.components ++ [⟨"cvs", name, node1, node2, value, name, some ("i" ++ name), some ctr⟩]
        nameT := ("i" ++ name, "i" ++ name) :: c.nameT
        symbolT := ("i" ++ name, "i" ++ name) :: (name, name) :: c.symbolT
        subsDic := addSubs c.subsDic name value }

/-- `addCIS`: the controller name must already be registered in `meas`,
otherwise `circuitEx('CIS controller must be defined previously')` is
raised; on success only the defining symbol is registered (no
branch-current symbol is created). -/
def Circuit.addCIS (c : Circuit) (name : String) (node1 node2 : ℤ) (cont : String)
    (value : Option ℚ) : Except Err Circuit :=
  match c.meas.lookup cont with
  | none => .error (.circuitEx "CIS controller must be defined previously")
  | some ctr => .ok
      { c with
        components := c.components ++ [⟨"cis", name, node1, node2, value, name, none, some ctr⟩]
        symbolT := (name, name) :: c.symbolT
        subsDic := addSubs c.subsDic name value }

/-- `sympy.Mul(-1, x)`: sympy's representation of unary minus. -/
def Expr.negE (x : Expr) : Expr := Expr.mul (Expr.const (-1)) x

/-- Solver state threaded through `solve()`: the circuit fields it reads
plus `equations`, the `unknowns` set (insertion-ordered, duplicate-free
list), `nodeList` and `nodeVars`.  The extra field `removed` is pure
instrumentation recording each symbol successfully removed from the
unknown set by a reduction pass; no stage reads it. -/
structure SState where
  components : List Comp
  subsDic : List (String × ℚ)
  nameT : List (String × String)
  symbolT : List (String × String)
  equations : List Expr
  unknowns : List Expr
  nodeList : List ℤ
  nodeVars : List (ℤ × Expr)
  removed : List Expr
deriving DecidableEq, Repr

/-- State at the start of `solve()` (`self.equations = []`,
`self.unknowns = set([])`). -/
def initState (c : Circuit) : SState :=
  ⟨c.components, c.subsDic, c.nameT, c.symbolT, [], [], [], [], []⟩

/-- Python `set.add`: no-op when the element is present. -/
def insertU (l : List Expr) (e : Expr) : List Expr :=
  if e ∈ l then l else l ++ [e]

/-- Python `set.remove`: raises `KeyError` when the element is absent. -/
def removeU (l : List Expr) (e : Expr) : Except Err (List Expr) :=
  if e ∈ l then .ok (l.erase e) else .error .keyError

/-- Python `dict` read `self.nodeVars[n]`: raises `KeyError` when the key
is absent. -/
def nvGet (st : SState) (n : ℤ) : Except Err Expr :=
  match st.nodeVars.lookup n with
  | some v => .ok v
  | none => .error .keyError

/-- Total read of `nodeVars` for the stamping phase, where `solve()`
guarantees every non-ground endpoint has an entry (the defaulted value is
never produced on the paths `solve()` takes). -/
def nvFun (st : SState) : ℤ → Expr :=
  fun n => (st.nodeVars.lookup n).getD (Expr.const 0)

/-- Insertion into the node set built by `_numNodes` (a Python `set`;
iteration order is modelled as insertion order — no result of the module
depends on it). -/
def insertNode (l : List ℤ) (n : ℤ) : List ℤ :=
  if n ∈ l then l else l ++ [n]

/-- The node set of a component list: both endpoints of every component. -/
def nodesOf (comps : List Comp) : List ℤ :=
  comps.foldl (fun l cm => insertNode (insertNode l cm.n1) cm.n2) []

/-- `_numNodes`: raises `circuitEx` on an empty registry, otherwise
collects all endpoints into `nodeList`. -/
def numNodes (st : SState) : Except Err SState :=
  if st.components = [] then .error (.circuitEx "No components in the circuit")
  else .ok { st with nodeList := nodesOf st.components }

/-- The body of `_nodeVariables`'s loop: for a non-ground node create the
symbol `v<node>`, adding it to `nodeVars`, to the unknown set and to both
symbol tables. -/
def nvStep (s : SState) (node : ℤ) : SState :=
  if node = 0 then s
  else
    let nm := "v" ++ toString node
    { s with
      nodeVars := s.nodeVars ++ [(node, Expr.sym nm)]
      unknowns := insertU s.unknowns (Expr.sym nm)
      nameT := (nm, nm) :: s.nameT
      symbolT := (nm, nm) :: s.symbolT }

/-- `_nodeVariables`: node variables for every node other than `0`;
raises `circuitEx` when `nodeList` is empty or when node `0` was never
seen. -/
def nodeVariables (st : SState) : Except Err SState :=
  if st.nodeList = [] then .error (.circuitEx "No nodes in the circuit")
  else
    let st' := st.nodeList.foldl nvStep st
    if 0 ∈ st.nodeList then .ok st' else .error (.circuitEx "No 0 node in circuit")

/-- `_addRtoNode`: stamp a resistor on the KCL row of `node`; a grounded
far endpoint contributes just the near node's voltage over `R`, with no
term standing for the ground voltage. -/
def addRtoNode (nv : ℤ → Expr) (res : Comp) (eq : Expr) (node : ℤ) : Expr :=
  let eq1 :=
    if res.n1 = node then
      if res.n2 = 0 then Expr.sub eq (Expr.div (nv res.n1) (Expr.sym res.sy))
      else Expr.sub eq (Expr.div (Expr.sub (nv res.n1) (nv res.n2)) (Expr.sym res.sy))
    else eq
  if res.n2 = node then
    if res.n1 = 0 then Expr.sub eq1 (Expr.div (nv res.n2) (Expr.sym res.sy))
    else Expr.sub eq1 (Expr.div (Expr.sub (nv res.n2) (nv res.n1)) (Expr.sym res.sy))
  else eq1

/-- `_addCtoNode`: capacitor stamp, admittance `s*C`. -/
def addCtoNode (nv : ℤ → Expr) (cap : Comp) (eq : Expr) (node : ℤ) : Expr :=
  let eq1 :=
    if cap.n1 = node then
      if cap.n2 = 0 then Expr.sub eq (Expr.mul (Expr.mul (Expr.sym cap.sy) (Expr.sym "s")) (nv cap.n1))
      else Expr.sub eq (Expr.mul (Expr.mul (Expr.sym cap.sy) (Expr.sym "s")) (Expr.sub (nv cap.n1) (nv cap.n2)))
    else eq
  if cap.n2 = node then
    if cap.n1 = 0 then Expr.sub eq1 (Expr.mul (Expr.mul (Expr.sym cap.sy) (Expr.sym "s")) (nv cap.n2))
    else Expr.sub eq1 (Expr.mul (Expr.mul (Expr.sym cap.sy) (Expr.sym "s")) (Expr.sub (nv cap.n2) (nv cap.n1)))
  else eq1

/-- `_addLtoNode`: inductor stamp, impedance `s*L`. -/
def addLtoNode (nv : ℤ → Expr) (ind : Comp) (eq : Expr) (node : ℤ) : Expr :=
  let eq1 :=
    if ind.n1 = node then
      if ind.n2 = 0 then Expr.sub eq (Expr.div (nv ind.n1) (Expr.mul (Expr.sym ind.sy) (Expr.sym "s")))
      else Expr.sub eq (Expr.div (Expr.sub (nv ind.n1) (nv ind.n2)) (Expr.mul (Expr.sym ind.sy) (Expr.sym "s")))
    else eq
  if ind.n2 = node then
    if ind.n1 = 0 then Expr.sub eq1 (Expr.div (nv ind.n2) (Expr.mul (Expr.sym ind.sy) (Expr.sym "s")))
    else Expr.sub eq1 (Expr.div (Expr.sub (nv ind.n2) (nv ind.n1)) (Expr.mul (Expr.sym ind.sy) (Expr.sym "s")))
  else eq1

/-- `_addVtoNode`: a voltage source contributes its branch-current symbol
`+` at `n1` and `-` at `n2`. -/
def addVtoNode (vs : Comp) (eq : Expr) (node : ℤ) : Expr :=
  let eq1 := if vs.n1 = node then Expr.add eq (Expr.sym (vs.isy.getD "")) else eq
  if vs.n2 = node then Expr.sub eq1 (Expr.sym (vs.isy.getD "")) else eq1

/-- `_addItoNode`: a current source contributes its own symbol `+` at
`n1` and `-` at `n2`. -/
def addItoNode (isr : Comp) (eq : Expr) (node : ℤ) : Expr :=
  let eq1 := if isr.n1 = node then Expr.add eq (Expr.sym isr.sy) else eq
  if isr.n2 = node then Expr.sub eq1 (Expr.sym isr.sy) else eq1

/-- `_addIMtoNode`: a current probe contributes its probe symbol like a
current source. -/
def addIMtoNode (im : Comp) (eq : Expr) (node : ℤ) : Expr :=
  let eq1 := if im.n1 = node then Expr.add eq (Expr.sym im.sy) else eq
  if im.n2 = node then Expr.sub eq1 (Expr.sym im.sy) else eq1

/-- The per-component dispatch inside `_addKCLequations` (voltage probes
fall through every branch and contribute nothing). -/
def stampComp (nv : ℤ → Expr) (node : ℤ) (eq : Expr) (cm : Comp) : Expr :=
  if cm.k = "r" then addRtoNode nv cm eq node
  else if cm.k = "c" then addCtoNode nv cm eq node
  else if cm.k = "l" then addLtoNode nv cm eq node
  else if cm.k = "vs" ∨ cm.k = "cvs" then addVtoNode cm eq node
  else if cm.k = "is" ∨ cm.k = "cis" then addItoNode cm eq node
  else if cm.k = "im" then addIMtoNode cm eq node
  else eq

/-- The body of `_addKCLequations`'s node loop: for a non-ground node,
append the row accumulated from `Rational(0,1)` over all components. -/
def kclStep (s : SState) (node : ℤ) : SState :=
  if node ≠ 0 then
    { s with equations :=
        s.equations ++ [s.components.foldl (stampComp (nvFun s) node) (Expr.const 0)] }
  else s

/-- `_addKCLequations`: one row per node of `nodeList` other than `0`. -/
def addKCLequations (st : SState) : SState :=
  st.nodeList.foldl kclStep st

/-- `_substEqs`: substitute `old` by `new` in every equation. -/
def substEqs (st : SState) (old new : Expr) : SState :=
  { st with equations := st.equations.map (fun e => e.subsE old new) }

/-- `_addVequations`: for every (controlled) voltage source, add the
branch-current symbol to the unknowns and append the source equation
(`Eq(sy, -v_n2)`, `Eq(sy, v_n1)` or `Eq(sy, v_n1 - v_n2)` by groundedness);
no node unknown is eliminated. -/
def vsStep (s : SState) (cm : Comp) : SState :=
  if cm.k = "vs" ∨ cm.k = "cvs" then
    let s1 := { s with unknowns := insertU s.unknowns (Expr.sym (cm.isy.getD "")) }
    if cm.n1 = 0 then
      { s1 with equations :=
          s1.equations ++ [Expr.eqE (Expr.sym cm.sy) (Expr.negE (nvFun s1 cm.n2))] }
    else if cm.n2 = 0 then
      { s1 with equations :=
          s1.equations ++ [Expr.eqE (Expr.sym cm.sy) (nvFun s1 cm.n1)] }
    else
      { s1 with equations :=
          s1.equations ++ [Expr.eqE (Expr.sym cm.sy) (Expr.sub (nvFun s1 cm.n1) (nvFun s1 cm.n2))] }
  else s

/-- `_addVequations`: the voltage-source pass over all components. -/
def addVequations (st : SState) : SState :=
  st.components.foldl vsStep st

/-- One component step of `_processIM`: a current probe shorts its two
endpoints.  With a grounded endpoint the other endpoint's `nodeVars` entry
is substituted by `0` everywhere and removed from the unknown set (the
removal is unguarded: a missing element raises `KeyError`); otherwise
`n1`'s entry is substituted by `n2`'s and removed — always `n1`'s. -/
def processIMstep (s : SState) (cm : Comp) : Except Err SState :=
  if cm.k = "im" then
    let s1 := { s with unknowns := insertU s.unknowns (Expr.sym cm.sy) }
    if cm.n1 = 0 then do
      let v ← nvGet s1 cm.n2
      let s2 := substEqs s1 v (Expr.const 0)
      let u ← removeU s2.unknowns v
      .ok { s2 with unknowns := u, removed := s2.removed ++ [v],
                    nodeVars := (cm.n2, Expr.const 0) :: s2.nodeVars }
    else if cm.n2 = 0 then do
      let v ← nvGet s1 cm.n1
      let s2 := substEqs s1 v (Expr.const 0)
      let u ← removeU s2.unknowns v
      .ok { s2 with unknowns := u, removed := s2.removed ++ [v],
                    nodeVars := (cm.n1, Expr.const 0) :: s2.nodeVars }
    else do
      let v1 ← nvGet s1 cm.n1
      let v2 ← nvGet s1 cm.n2
      let s2 := substEqs s1 v1 v2
      let u ← removeU s2.unknowns v1
      .ok { s2 with unknowns := u, removed := s2.removed ++ [v1],
                    nodeVars := (cm.n1, v2) :: s2.nodeVars }
  else .ok s

/-- `_processIM`: the current-probe pass over all components. -/
def processIM (st : SState) : Except Err SState :=
  st.components.foldlM processIMstep st

/-- One component step of `_processVM`: a voltage probe with a grounded
endpoint substitutes the other endpoint's entry by `-probe` (ground at
`n1`) or `+probe` (ground at `n2`); the removal from the unknown set is
guarded (`try/except KeyError`), the guard's fallback appending
`Eq(probe, nodeVars[other])`.  With no grounded endpoint it appends
`Eq(probe, v_n1 - v_n2)`. -/
def processVMstep (s : SState) (cm : Comp) : Except Err SState :=
  if cm.k = "vm" then
    let s1 := { s with unknowns := insertU s.unknowns (Expr.sym cm.sy) }
    if cm.n1 = 0 then do
      let v ← nvGet s1 cm.n2
      let s2 := substEqs s1 v (Expr.negE (Expr.sym cm.sy))
      if v ∈ s2.unknowns then
        .ok { s2 with unknowns := s2.unknowns.erase v, removed := s2.removed ++ [v] }
      else
        .ok { s2 with equations := s2.equations ++ [Expr.eqE (Expr.sym cm.sy) v] }
    else if cm.n2 = 0 then do
      let v ← nvGet s1 cm.n1
      let s2 := substEqs s1 v (Expr.sym cm.sy)
      if v ∈ s2.unknowns then
        .ok { s2 with unknowns := s2.unknowns.erase v, removed := s2.removed ++ [v] }
      else
        .ok { s2 with equations := s2.equations ++ [Expr.eqE (Expr.sym cm.sy) v] }
    else do
      let v1 ← nvGet s1 cm.n1
      let v2 ← nvGet s1 cm.n2
      .ok { s1 with equations := s1.equations ++ [Expr.eqE (Expr.sym cm.sy) (Expr.sub v1 v2)] }
  else .ok s

/-- `_processVM`: the voltage-probe pass over all components. -/
def processVM (st : SState) : Except Err SState :=
  st.components.foldlM processVMstep st

/-- The body of `_processCtr`'s loop: a controlled source's defining
symbol is replaced throughout all equations by that symbol times the
controller probe's symbol. -/
def ctrStep (s : SState) (cm : Comp) : SState :=
  if cm.k = "cvs" ∨ cm.k = "cis" then
    substEqs s (Expr.sym cm.sy) (Expr.mul (Expr.sym cm.sy) (Expr.sym (cm.ctr.getD "")))
  else s

/-- `_processCtr`: the controlled-source pass over all components. -/
def processCtr (st : SState) : SState :=
  st.components.foldl ctrStep st

/-- The equation-building part of `solve()`: every stage up to and
including the controlled-source pass, in the order `solve()` runs them
(`_numNodes`, `_nodeVariables`, `_addKCLequations`, `_addVequations`,
`_processIM`, `_processVM`, `_processCtr`). -/
def solveStages (c : Circuit) : Except Err SState := do
  let st0 := initState c
  let st1 ← numNodes st0
  let st2 ← nodeVariables st1
  let st3 := addKCLequations st2
  let st4 := addVequations st3
  let st5 ← processIM st4
  let st6 ← processVM st5
  .ok (processCtr st6)

/-- An exact fraction `num/den` of integers, kept unnormalized so that
all arithmetic is plain integer arithmetic (the denominators produced
below are never `0`); used only inside the model of the external algebra
engine, and converted to `ℚ` at the very end. -/
abbrev Frac := Int × Int

/-- The fraction of a rational number. -/
def fracOfRat (q : ℚ) : Frac := (q.num, (q.den : Int))

/-- Fraction addition. -/
def fadd (x y : Frac) : Frac := (x.1 * y.2 + y.1 * x.2, x.2 * y.2)

/-- Fraction multiplication. -/
def fmul (x y : Frac) : Frac := (x.1 * y.1, x.2 * y.2)

/-- Fraction reciprocal. -/
def finv (x : Frac) : Frac := (x.2, x.1)

/-- Fraction negation. -/
def fneg (x : Frac) : Frac := (-x.1, x.2)

/-- Zero test (sound because denominators stay non-zero). -/
def fzero (x : Frac) : Bool := x.1 = 0

/-- The rational number a fraction denotes. -/
def fratOf (x : Frac) : ℚ :=
  if x.2 < 0 then mkRat (-x.1) (-x.2).toNat else mkRat x.1 x.2.toNat

/-- A linear form `k + Σ cᵢ·xᵢ` over symbol names (coefficients as an
association list in which the same name may occur several times; its
coefficient is the sum of its entries). -/
structure Lin where
  coef : List (String × Frac)
  k : Frac
deriving DecidableEq, Repr

/-- The coefficient of `x` in `l`. -/
def coefOf (l : Lin) (x : String) : Frac :=
  (l.coef.filter (fun p => p.1 = x)).foldl (fun a p => fadd a p.2) (0, 1)

/-- Delete every entry of `x`. -/
def dropVar (l : Lin) (x : String) : Lin :=
  ⟨l.coef.filter (fun p => p.1 ≠ x), l.k⟩

/-- Multiply a linear form by a scalar. -/
def scaleLin (q : Frac) (l : Lin) : Lin :=
  ⟨l.coef.map (fun p => (p.1, fmul q p.2)), fmul q l.k⟩

/-- Add two linear forms. -/
def addLin (a b : Lin) : Lin := ⟨a.coef ++ b.coef, fadd a.k b.k⟩

/-- A linear form that is constant (every coefficient vanishes). -/
def Lin.isConst (l : Lin) : Bool := l.coef.all (fun p => fzero (coefOf l p.1))

/-- Linearize an expression: fails on a genuine product or quotient of
two non-constant parts (the systems the solver builds are linear in the
unknowns once component values have been substituted). -/
def toLin : Expr → Option Lin
  | .const q => some ⟨[], fracOfRat q⟩
  | .sym s => some ⟨[(s, (1, 1))], (0, 1)⟩
  | .add a b => do
      let la ← toLin a
      let lb ← toLin b
      some (addLin la lb)
  | .sub a b => do
      let la ← toLin a
      let lb ← toLin b
      some (addLin la (scaleLin (-1, 1) lb))
  | .mul a b => do
      let la ← toLin a
      let lb ← toLin b
      if la.isConst then some (scaleLin la.k lb)
      else if lb.isConst then some (scaleLin lb.k la)
      else none
  | .div a b => do
      let la ← toLin a
      let lb ← toLin b
      if lb.isConst ∧ ¬ fzero lb.k then some (scaleLin (finv lb.k) la) else none
  | .eqE a b => do
      let la ← toLin a
      let lb ← toLin b
      some (addLin la (scaleLin (-1, 1) lb))

/-- Evaluate a linear form under a finite assignment. -/
def evalLin (σ : List (String × Frac)) (l : Lin) : Frac :=
  l.coef.foldl (fun a p => fadd a (fmul p.2 ((σ.lookup p.1).getD (0, 1)))) l.k

/-- Find the first equation whose coefficient on `x` is non-zero,
returning it together with the remaining equations. -/
def pickPivot (x : String) : List Lin → Option (Lin × List Lin)
  | [] => none
  | e :: rest =>
    if ¬ fzero (coefOf e x) then some (e, rest)
    else
      match pickPivot x rest with
      | none => none
      | some (p, rs) => some (p, e :: rs)

/-- Replace `x` by the linear form `sol` inside `f`. -/
def substLin (x : String) (sol : Lin) (f : Lin) : Lin :=
  addLin (dropVar f x) (scaleLin (coefOf f x) sol)

/-- The trivial equation `0 = 0`. -/
def linZero (l : Lin) : Bool :=
  fzero l.k ∧ l.coef.all (fun p => fzero (coefOf l p.1))

/-- Gaussian elimination: solve the equations (each read as `= 0`) for
the listed unknowns, succeeding only when the solution exists and is
unique (leftover equations must be trivial once all unknowns are
eliminated). -/
def gaussSolve : List String → List Lin → Option (List (String × Frac))
  | [], eqs => if eqs.all linZero then some [] else none
  | x :: xs, eqs =>
    match pickPivot x eqs with
    | none => none
    | some (e, rest) =>
      let c := coefOf e x
      let sol := scaleLin (fneg (finv c)) (dropVar e x)
      match gaussSolve xs (rest.map (substLin x sol)) with
      | none => none
      | some σ => some ((x, evalLin σ sol) :: σ)

/-- The equation list with every valued component symbol replaced by its
value from the substitution dictionary (`subsDic`). -/
def valuedEquations (st : SState) : List Expr :=
  st.equations.map (fun e =>
    st.subsDic.foldr (fun p e => e.subsE (Expr.sym p.1) (Expr.const p.2)) e)

/-- Modelled from the spec: the external symbolic-algebra engine
(`sympy.solve`) and the result-mapping steps `_solveEquations`,
`_nameSolution` and `_substituteSolution` are outside this repository's
code; per §4.5/§6 the engine solves the equation list for the unknown
list and the results are then renamed through the `name` table and the
component values substituted.  For concrete evaluation this model
substitutes the values first and solves the resulting linear system —
when the symbolic system has a unique solution this yields exactly the
value-substituted solution `subs()` reports. -/
def engineParticular (st : SState) : Option (List (String × ℚ)) := do
  let lins ← (valuedEquations st).mapM toLin
  let unks := st.unknowns.filterMap (fun e =>
    match e with
    | .sym s => some s
    | _ => none)
  let sol ← gaussSolve unks lins
  sol.mapM (fun p => do
    let nm ← st.nameT.lookup p.1
    some (nm, fratOf p.2))

/-- `solve()` followed by `subs()`, under the engine model above: the
name-keyed, value-substituted solution. -/
def subsOf (c : Circuit) : Option (List (String × ℚ)) :=
  match solveStages c with
  | .error _ => none
  | .ok st => engineParticular st

instance {ε α : Type} [DecidableEq ε] [DecidableEq α] : DecidableEq (Except ε α) := fun a b =>
  match a, b with
  | .error e, .error f =>
    if h : e = f then isTrue (by rw [h]) else isFalse (by simp [h])
  | .ok x, .ok y =>
    if h : x = y then isTrue (by rw [h]) else isFalse (by simp [h])
  | .error _, .ok _ => isFalse (by simp)
  | .ok _, .error _ => isFalse (by simp)

/-- `bind` on an `Except` error short-circuits. -/
theorem errBind {α β : Type} (e : Err) (f : α → Except Err β) :
    (Except.error e >>= f : Except Err β) = Except.error e := rfl

/-- `bind` on an `Except` success applies the continuation. -/
theorem okBind {α β : Type} (x : α) (f : α → Except Err β) :
    (Except.ok x >>= f : Except Err β) = f x := rfl

/-! ## Concrete circuits used by the concrete claims -/

/-- The divider scenario: `addV('V1',1,0,10)`, `addR('R1',1,2,1000)`,
`addR('R2',2,0,1000)`. -/
def circuit1 : Circuit :=
  (((Circuit.empty.addV "V1" 1 0 (some 10)).addR "R1" 1 2 (some 1000)).addR "R2" 2 0 (some 1000))

/-- The value-substituted equations `solve()` hands to the engine for
`circuit1`. -/
def c1eqs : List Expr := (solveStages circuit1).toOption.elim [] valuedEquations

/-- A single independent current source. -/
def circuitI1 : Circuit := Circuit.empty.addI "I1" 1 0 (some 1)

/-- A current probe from ground to node 1 followed by a current probe
from node 1 to node 2. -/
def circuit10 : Circuit := (Circuit.empty.addIM "M1" 0 1).addIM "M2" 1 2

/-- The voltage-probe analogue of `circuit10`. -/
def circuitVMpair : Circuit := (Circuit.empty.addVM "P1" 0 1).addVM "P2" 1 2

/-- A circuit holding one registered probe, for controlled-source adds. -/
def cw : Circuit := Circuit.empty.addVM "P" 1 0

/-- The circuit produced by a successful `addCVS` on `cw`. -/
def cwE : Circuit := (cw.addCVS "E" 1 2 "P" none).toOption.getD Circuit.empty

/-- The circuit produced by a successful `addCIS` on `cw`. -/
def cwF : Circuit := (cw.addCIS "F" 1 2 "P" none).toOption.getD Circuit.empty

/-! ## C1 -/

/-- C1 (counterexample): for the circuit `addV('V1',1,0,10)`,
`addR('R1',1,2,1000)`, `addR('R2',2,0,1000)`, the value-substituted
solution maps the source's branch-current name `iV1` to `+1/200 = +0.005`,
not to `-0.005` as the claim states (node 2's voltage is `5.0` as
claimed). -/
theorem claim_C1_counterexample :
    (subsOf circuit1).bind (List.lookup "iV1") = some (mkRat 1 200) ∧
    (subsOf circuit1).bind (List.lookup "iV1") ≠ some (-(mkRat 1 200)) := by
  constructor
  · decide
  · decide

/-- C1 (amended): after `solve()`, the value-substituted solution of the
divider circuit maps `v2` to `5.0` and `iV1` to `+0.005` (that is,
`+V1/(2*R1)`), the sign being opposite to the claim's `-0.005`. -/
theorem claim_C1_amended_thm :
    (subsOf circuit1).bind (List.lookup "v2") = some (5 : ℚ) ∧
    (subsOf circuit1).bind (List.lookup "iV1") = some (mkRat 1 200) := by
  constructor
  · decide
  · decide

/-- Engine-independent support for C1: any assignment satisfying the
value-substituted equation system `solve()` builds for `circuit1` gives
`v2 = 5` and `iV1 = +1/200`; since `sympy.solve` returns a satisfying
assignment, the reported current is `+0.005` regardless of the engine
model. -/
theorem circuit1_equations_force (σ : String → ℚ)
    (h : ∀ e ∈ c1eqs, e.holds σ) : σ "v2" = 5 ∧ σ "iV1" = mkRat 1 200 := by
  have hl : c1eqs =
      [Expr.sub (Expr.add (Expr.const 0) (Expr.sym "iV1"))
         (Expr.div (Expr.sub (Expr.sym "v1") (Expr.sym "v2")) (Expr.const 1000)),
       Expr.sub (Expr.sub (Expr.const 0)
           (Expr.div (Expr.sub (Expr.sym "v2") (Expr.sym "v1")) (Expr.const 1000)))
         (Expr.div (Expr.sym "v2") (Expr.const 1000)),
       Expr.eqE (Expr.const 10) (Expr.sym "v1")] := by decide
  rw [hl] at h
  have h1 := h _ (List.mem_cons_self _ _)
  have h2 := h _ (List.mem_cons_of_mem _ (List.mem_cons_self _ _))
  have h3 := h _ (List.mem_cons_of_mem _ (List.mem_cons_of_mem _ (List.mem_cons_self _ _)))
  simp only [Expr.holds, Expr.evalE] at h1 h2 h3
  have hm : (mkRat 1 200 : ℚ) = 1 / 200 := by
    rw [Rat.mkRat_eq_div]; norm_num
  rw [hm]
  constructor <;> linarith

/-! ## C9 -/

/-- C9 (counterexample): `addI` registers no branch-current symbol — after
`addI('I1',1,0,1)` neither symbol table has an entry `iI1` and the
appended component record carries no current symbol; this refutes the
claim that every source-add operation creates one. -/
theorem claim_C9_counterexample :
    circuitI1.symbolT.lookup "iI1" = none ∧
    circuitI1.nameT.lookup "iI1" = none ∧
    circuitI1.components.map Comp.isy = [none] := by
  refine ⟨by decide, by decide, by decide⟩

/-- C9 (amended): only the voltage-source adds (`addV`, `addCVS`) create
and register the branch-current symbol `"i" + name`; the current-source
adds (`addI`, `addCIS`) register only the defining symbol and leave the
record's current-symbol slot empty. -/
theorem claim_C9_amended_thm (c : Circuit) (name : String) (n1 n2 : ℤ) (v : Option ℚ)
    (cont : String) :
    ((c.addV name n1 n2 v).symbolT.lookup ("i" ++ name) = some ("i" ++ name) ∧
     (c.addV name n1 n2 v).components =
       c.components ++ [⟨"vs", name, n1, n2, v, name, some ("i" ++ name), none⟩]) ∧
    ((c.addI name n1 n2 v).symbolT = (name, name) :: c.symbolT ∧
     (c.addI name n1 n2 v).nameT = c.nameT ∧
     (c.addI name n1 n2 v).components =
       c.components ++ [⟨"is", name, n1, n2, v, name, none, none⟩]) ∧
    (∀ c', c.addCVS name n1 n2 cont v = .ok c' →
       c'.symbolT.lookup ("i" ++ name) = some ("i" ++ name) ∧
       ∃ ctr, c'.components =
         c.components ++ [⟨"cvs", name, n1, n2, v, name, some ("i" ++ name), some ctr⟩]) ∧
    (∀ c', c.addCIS name n1 n2 cont v = .ok c' →
       c'.symbolT = (name, name) :: c.symbolT ∧ c'.nameT = c.nameT ∧
       ∃ ctr, c'.components =
         c.components ++ [⟨"cis", name, n1, n2, v, name, none, some ctr⟩]) := by
  refine ⟨⟨?_, ?_⟩, ⟨rfl, rfl, rfl⟩, ?_, ?_⟩
  · simp [Circuit.addV, List.lookup]
  · rfl
  · intro c' h
    unfold Circuit.addCVS at h
    cases hm : c.meas.lookup cont with
    | none => rw [hm] at h; exact absurd h (by simp)
    | some ctr =>
      rw [hm] at h
      simp only [Except.ok.injEq] at h
      subst h
      exact ⟨by simp [List.lookup], ctr, rfl⟩
  · intro c' h
    unfold Circuit.addCIS at h
    cases hm : c.meas.lookup cont with
    | none => rw [hm] at h; exact absurd h (by simp)
    | some ctr =>
      rw [hm] at h
      simp only [Except.ok.injEq] at h
      subst h
      exact ⟨rfl, rfl, ctr, rfl⟩

/-- C9 (witness): the amended statement evaluated on a concrete circuit
holding the probe `P`, with the controlled-source branches discharged at
the concrete results of `addCVS`/`addCIS`. -/
theorem claim_C9_amended_witness :
    ((cw.addV "E" 1 2 none).symbolT.lookup "iE" = some "iE" ∧
     (cw.addV "E" 1 2 none).components =
       cw.components ++ [⟨"vs", "E", 1, 2, none, "E", some "iE", none⟩]) ∧
    ((cw.addI "J" 1 2 none).symbolT = ("J", "J") :: cw.symbolT ∧
     (cw.addI "J" 1 2 none).nameT = cw.nameT ∧
     (cw.addI "J" 1 2 none).components =
       cw.components ++ [⟨"is", "J", 1, 2, none, "J", none, none⟩]) ∧
    (cwE.symbolT.lookup "iE" = some "iE" ∧
     ∃ ctr, cwE.components = cw.components ++ [⟨"cvs", "E", 1, 2, none, "E", some "iE", some ctr⟩]) ∧
    (cwF.symbolT = ("F", "F") :: cw.symbolT ∧ cwF.nameT = cw.nameT ∧
     ∃ ctr, cwF.components = cw.components ++ [⟨"cis", "F", 1, 2, none, "F", none, some ctr⟩]) := by
  have h1 := claim_C9_amended_thm cw "E" 1 2 none "P"
  have h2 := claim_C9_amended_thm cw "J" 1 2 none "P"
  have h3 := claim_C9_amended_thm cw "F" 1 2 none "P"
  exact ⟨h1.1, h2.2.1, h1.2.2.1 cwE (by decide), h3.2.2.2 cwF (by decide)⟩

/-! ## C10 -/

/-- The prefix of `solve()` that ends with the current-probe pass
(`_processIM`). -/
def solveThroughIM (c : Circuit) : Except Err SState := do
  let st1 ← numNodes (initState c)
  let st2 ← nodeVariables st1
  processIM (addVequations (addKCLequations st2))

/-- C10: for the circuit `addIM('M1',0,1)`, `addIM('M2',1,2)` — a current
probe from ground to node 1 followed by one from node 1 to node 2 —
`solve()` raises the builtin `KeyError` (not the circuit's
`ConfigurationError`): the first probe eliminates `v1` from the unknown
set, and the second probe's unguarded `set.remove` in the current-probe
pass then fails.  Node discovery and node-variable creation succeed, the
error arises in `_processIM`; the analogous voltage-probe circuit
completes because `_processVM` guards its removal. -/
theorem claim_C10_thm :
    solveStages circuit10 = .error Err.keyError ∧
    solveThroughIM circuit10 = .error Err.keyError ∧
    ((numNodes (initState circuit10)).bind nodeVariables).toOption ≠ none ∧
    (solveStages circuitVMpair).toOption ≠ none := by
  refine ⟨by decide, by decide, by decide, by decide⟩

/-! ## C7 -/

/-- C7: adding a controlled source whose controller name is not a
registered probe raises `circuitEx` at add time (the embedding's add
returns the error without producing any circuit, so the caller's circuit
value is untouched); with a registered probe as controller the add
succeeds. -/
theorem claim_C7_thm (c : Circuit) (name : String) (n1 n2 : ℤ) (cont : String) (v : Option ℚ) :
    (c.meas.lookup cont = none →
       c.addCVS name n1 n2 cont v = .error (.circuitEx "CVS controller must be defined previously") ∧
       c.addCIS name n1 n2 cont v = .error (.circuitEx "CIS controller must be defined previously")) ∧
    (∀ ctr, c.meas.lookup cont = some ctr →
       (c.addCVS name n1 n2 cont v).toOption ≠ none ∧
       (c.addCIS name n1 n2 cont v).toOption ≠ none) := by
  constructor
  · intro h
    constructor
    · unfold Circuit.addCVS; rw [h]
    · unfold Circuit.addCIS; rw [h]
  · intro ctr h
    constructor
    · unfold Circuit.addCVS; rw [h]; simp [Except.toOption]
    · unfold Circuit.addCIS; rw [h]; simp [Except.toOption]

/-- C7 (witness): on the empty circuit the controller `P` is undefined and
both adds fail with the `circuitEx`; on `cw` (where probe `P` exists) both
adds succeed. -/
theorem claim_C7_witness :
    (Circuit.empty.addCVS "E" 1 2 "P" none =
       .error (.circuitEx "CVS controller must be defined previously") ∧
     Circuit.empty.addCIS "F" 1 2 "P" none =
       .error (.circuitEx "CIS controller must be defined previously")) ∧
    ((cw.addCVS "E" 1 2 "P" none).toOption ≠ none ∧
     (cw.addCIS "F" 1 2 "P" none).toOption ≠ none) := by
  have h1 := (claim_C7_thm Circuit.empty "E" 1 2 "P" none).1 (by decide)
  have h2 := (claim_C7_thm Circuit.empty "F" 1 2 "P" none).1 (by decide)
  have h3 := (claim_C7_thm cw "E" 1 2 "P" none).2 "P" (by decide)
  have h4 := (claim_C7_thm cw "F" 1 2 "P" none).2 "P" (by decide)
  exact ⟨⟨h1.1, h2.2⟩, h3.1, h4.2⟩

/-! ## C6 -/

theorem mem_insertNode {l : List ℤ} {n m : ℤ} :
    m ∈ insertNode l n ↔ m ∈ l ∨ m = n := by
  unfold insertNode
  by_cases h : n ∈ l
  · simp only [if_pos h, List.mem_append]
    constructor
    · exact Or.inl
    · rintro (hm | rfl)
      · exact hm
      · exact h
  · simp [if_neg h]

theorem mem_nodesOf_fold {comps : List Comp} :
    ∀ {l : List ℤ} {m : ℤ},
      m ∈ comps.foldl (fun l cm => insertNode (insertNode l cm.n1) cm.n2) l ↔
      m ∈ l ∨ ∃ cm ∈ comps, cm.n1 = m ∨ cm.n2 = m := by
  induction comps with
  | nil => intro l m; simp
  | cons c rest ih =>
    intro l m
    simp only [List.foldl_cons]
    rw [ih]
    rw [mem_insertNode, mem_insertNode]
    simp only [List.mem_cons]
    constructor
    · rintro (((hm | rfl) | rfl) | ⟨cm, hcm, hor⟩)
      · exact Or.inl hm
      · exact Or.inr ⟨c, Or.inl rfl, Or.inl rfl⟩
      · exact Or.inr ⟨c, Or.inl rfl, Or.inr rfl⟩
      · exact Or.inr ⟨cm, Or.inr hcm, hor⟩
    · rintro (hm | ⟨cm, (rfl | hcm), hor⟩)
      · exact Or.inl (Or.inl (Or.inl hm))
      · rcases hor with h1 | h2
        · exact Or.inl (Or.inl (Or.inr h1.symm))
        · exact Or.inl (Or.inr h2.symm)
      · exact Or.inr ⟨cm, hcm, hor⟩

theorem mem_nodesOf {comps : List Comp} {m : ℤ} :
    m ∈ nodesOf comps ↔ ∃ cm ∈ comps, cm.n1 = m ∨ cm.n2 = m := by
  unfold nodesOf
  rw [mem_nodesOf_fold]
  simp

theorem nodesOf_ne_nil {comps : List Comp} (h : comps ≠ []) : nodesOf comps ≠ [] := by
  cases comps with
  | nil => exact absurd rfl h
  | cons c rest =>
    intro hnil
    have : c.n1 ∈ nodesOf (c :: rest) :=
      mem_nodesOf.mpr ⟨c, List.mem_cons_self _ _, Or.inl rfl⟩
    rw [hnil] at this
    exact absurd this (List.not_mem_nil _)

/-- C6: with an empty registry, `solve()` raises `circuitEx` from
`_numNodes`; with a non-empty registry in which node `0` is never an
endpoint, `solve()` raises `circuitEx` from `_nodeVariables` — in both
cases before any equation is assembled (the failing stage precedes
`_addKCLequations` in the pipeline), and never at component-add time (the
add operations are total functions of the embedding, except for the
controlled-source controller check). -/
theorem claim_C6_thm (c : Circuit) :
    (c.components = [] →
       numNodes (initState c) = .error (.circuitEx "No components in the circuit") ∧
       solveStages c = .error (.circuitEx "No components in the circuit")) ∧
    (c.components ≠ [] → (∀ cm ∈ c.components, cm.n1 ≠ 0 ∧ cm.n2 ≠ 0) →
       ((numNodes (initState c)).bind nodeVariables) = .error (.circuitEx "No 0 node in circuit") ∧
       solveStages c = .error (.circuitEx "No 0 node in circuit")) := by
  constructor
  · intro h
    have hn : numNodes (initState c) = .error (.circuitEx "No components in the circuit") := by
      simp [numNodes, initState, h]
    refine ⟨hn, ?_⟩
    simp [solveStages, hn, errBind]
  · intro hne hz
    have hnil : nodesOf c.components ≠ [] := nodesOf_ne_nil hne
    have hzero : (0 : ℤ) ∉ nodesOf c.components := by
      intro h0
      rcases mem_nodesOf.mp h0 with ⟨cm, hcm, h1 | h2⟩
      · exact (hz cm hcm).1 h1
      · exact (hz cm hcm).2 h2
    have hn : numNodes (initState c) =
        .ok ⟨c.components, c.subsDic, c.nameT, c.symbolT, [], [], nodesOf c.components, [], []⟩ := by
      simp [numNodes, initState, hne]
    have hnv : nodeVariables
        (⟨c.components, c.subsDic, c.nameT, c.symbolT, [], [], nodesOf c.components, [], []⟩ : SState) =
        .error (.circuitEx "No 0 node in circuit") := by
      simp [nodeVariables, hnil, hzero]
    constructor
    · rw [hn]
      show nodeVariables _ = _
      exact hnv
    · simp [solveStages, hn, hnv, errBind, okBind]

/-- C6 (witness): the empty circuit fails with the no-components error; a
single resistor between nodes 1 and 2 (no ground) fails with the
no-reference-node error. -/
theorem claim_C6_witness :
    (numNodes (initState Circuit.empty) = .error (.circuitEx "No components in the circuit") ∧
     solveStages Circuit.empty = .error (.circuitEx "No components in the circuit")) ∧
    (((numNodes (initState (Circuit.empty.addR "R1" 1 2 none))).bind nodeVariables) =
       .error (.circuitEx "No 0 node in circuit") ∧
     solveStages (Circuit.empty.addR "R1" 1 2 none) =
       .error (.circuitEx "No 0 node in circuit")) := by
  have h1 := (claim_C6_thm Circuit.empty).1 rfl
  have h2 := (claim_C6_thm (Circuit.empty.addR "R1" 1 2 none)).2 (by decide) (by decide)
  exact ⟨h1, h2⟩

/-! ## C2 -/

theorem kclStep_fold_length :
    ∀ (nodes : List ℤ) (s : SState),
      (nodes.foldl kclStep s).equations.length =
        s.equations.length + (nodes.filter (fun n => n ≠ 0)).length := by
  intro nodes
  induction nodes with
  | nil => intro s; simp
  | cons n rest ih =>
    intro s
    simp only [List.foldl_cons, List.filter_cons]
    by_cases hn : n = 0
    · simp only [hn]
      rw [ih]
      simp [kclStep]
    · have h1 : (kclStep s n).equations.length = s.equations.length + 1 := by
        simp [kclStep, hn]
      rw [ih, h1]
      simp [hn]
      omega

/-- C2: equation assembly appends exactly one KCL row for every node of
`nodeList` other than `0`; the resistor stamp `_addRtoNode` contributes
`-(Vn1-Vn2)/R` to `n1`'s row and (up to the recorded `-(Vn2-Vn1)/R` form,
numerically) `+(Vn1-Vn2)/R` to `n2`'s row, and when the far endpoint is
ground the term is just the near endpoint's voltage over `R`, with no
expression standing for the ground voltage; a resistor touching neither
endpoint leaves the row unchanged. -/
theorem claim_C2_thm (st : SState) (nv : ℤ → Expr) (res : Comp) (eq : Expr) (node : ℤ)
    (σ : String → ℚ) (hnode : node ≠ 0) :
    ((addKCLequations st).equations.length =
       st.equations.length + (st.nodeList.filter (fun n => n ≠ 0)).length) ∧
    (res.n1 = node → res.n2 ≠ node → res.n2 ≠ 0 →
       addRtoNode nv res eq node =
         Expr.sub eq (Expr.div (Expr.sub (nv res.n1) (nv res.n2)) (Expr.sym res.sy))) ∧
    (res.n1 = node → res.n2 = 0 →
       addRtoNode nv res eq node = Expr.sub eq (Expr.div (nv res.n1) (Expr.sym res.sy))) ∧
    (res.n2 = node → res.n1 ≠ node → res.n1 ≠ 0 →
       addRtoNode nv res eq node =
         Expr.sub eq (Expr.div (Expr.sub (nv res.n2) (nv res.n1)) (Expr.sym res.sy)) ∧
       (addRtoNode nv res eq node).evalE σ =
         eq.evalE σ + ((nv res.n1).evalE σ - (nv res.n2).evalE σ) / σ res.sy) ∧
    (res.n2 = node → res.n1 = 0 →
       addRtoNode nv res eq node = Expr.sub eq (Expr.div (nv res.n2) (Expr.sym res.sy))) ∧
    (res.n1 ≠ node → res.n2 ≠ node → addRtoNode nv res eq node = eq) := by
  refine ⟨kclStep_fold_length st.nodeList st, ?_, ?_, ?_, ?_, ?_⟩
  · intro h1 h2 h3
    simp [addRtoNode, h1, h2, h3]
  · intro h1 h2
    have h3 : res.n2 ≠ node := by rw [h2]; exact fun hh => hnode hh.symm
    simp [addRtoNode, h1, h2, h3, hnode.symm]
  · intro h1 h2 h3
    have hst : addRtoNode nv res eq node =
        Expr.sub eq (Expr.div (Expr.sub (nv res.n2) (nv res.n1)) (Expr.sym res.sy)) := by
      simp [addRtoNode, h1, h2, h3]
    refine ⟨hst, ?_⟩
    rw [hst]
    simp only [Expr.evalE]
    ring
  · intro h1 h2
    have h3 : res.n1 ≠ node := by rw [h2]; exact fun hh => hnode hh.symm
    simp [addRtoNode, h1, h2, h3, hnode.symm]
  · intro h1 h2
    simp [addRtoNode, h1, h2]

/-- The lookup used by the witnesses: the initial node-voltage symbols. -/
def nvX : ℤ → Expr := fun n => Expr.sym ("v" ++ toString n)

/-- C2 (witness): the stamp equalities at node 1 for concrete resistors
`R1` between 1–2, `Rg` between 1–0, `Rb` between 2–1, `Rh` between 0–1 and
`Rf` between 2–3, an arbitrary row `eq = v9` and the all-ones assignment,
together with the row count for a concrete state. -/
theorem claim_C2_witness :
    ((addKCLequations ⟨[], [], [], [], [], [], [1, 0, 2], [], []⟩).equations.length =
       0 + 2) ∧
    (addRtoNode nvX ⟨"r", "R1", 1, 2, none, "R1", none, none⟩ (Expr.sym "v9") 1 =
       Expr.sub (Expr.sym "v9")
         (Expr.div (Expr.sub (nvX 1) (nvX 2)) (Expr.sym "R1"))) ∧
    (addRtoNode nvX ⟨"r", "Rg", 1, 0, none, "Rg", none, none⟩ (Expr.sym "v9") 1 =
       Expr.sub (Expr.sym "v9") (Expr.div (nvX 1) (Expr.sym "Rg"))) ∧
    (addRtoNode nvX ⟨"r", "Rb", 2, 1, none, "Rb", none, none⟩ (Expr.sym "v9") 1 =
       Expr.sub (Expr.sym "v9")
         (Expr.div (Expr.sub (nvX 1) (nvX 2)) (Expr.sym "Rb")) ∧
     (addRtoNode nvX ⟨"r", "Rb", 2, 1, none, "Rb", none, none⟩ (Expr.sym "v9") 1).evalE
         (fun _ => 1) =
       (Expr.sym "v9").evalE (fun _ => 1) +
         ((nvX 2).evalE (fun _ => 1) - (nvX 1).evalE (fun _ => 1)) / (fun _ => (1 : ℚ)) "Rb") ∧
    (addRtoNode nvX ⟨"r", "Rh", 0, 1, none, "Rh", none, none⟩ (Expr.sym "v9") 1 =
       Expr.sub (Expr.sym "v9") (Expr.div (nvX 1) (Expr.sym "Rh"))) ∧
    (addRtoNode nvX ⟨"r", "Rf", 2, 3, none, "Rf", none, none⟩ (Expr.sym "v9") 1 =
       Expr.sym "v9") := by
  have hA := claim_C2_thm ⟨[], [], [], [], [], [], [1, 0, 2], [], []⟩ nvX
    ⟨"r", "R1", 1, 2, none, "R1", none, none⟩ (Expr.sym "v9") 1 (fun _ => 1) (by decide)
  have hB := claim_C2_thm ⟨[], [], [], [], [], [], [1, 0, 2], [], []⟩ nvX
    ⟨"r", "Rg", 1, 0, none, "Rg", none, none⟩ (Expr.sym "v9") 1 (fun _ => 1) (by decide)
  have hC := claim_C2_thm ⟨[], [], [], [], [], [], [1, 0, 2], [], []⟩ nvX
    ⟨"r", "Rb", 2, 1, none, "Rb", none, none⟩ (Expr.sym "v9") 1 (fun _ => 1) (by decide)
  have hD := claim_C2_thm ⟨[], [], [], [], [], [], [1, 0, 2], [], []⟩ nvX
    ⟨"r", "Rh", 0, 1, none, "Rh", none, none⟩ (Expr.sym "v9") 1 (fun _ => 1) (by decide)
  have hE := claim_C2_thm ⟨[], [], [], [], [], [], [1, 0, 2], [], []⟩ nvX
    ⟨"r", "Rf", 2, 3, none, "Rf", none, none⟩ (Expr.sym "v9") 1 (fun _ => 1) (by decide)
  refine ⟨?_, ?_, ?_, ?_, ?_, ?_⟩
  · have := hA.1
    simpa using this
  · exact hA.2.1 rfl (by decide) (by decide)
  · exact hB.2.2.1 rfl rfl
  · exact hC.2.2.2.1 rfl (by decide) (by decide)
  · exact hD.2.2.2.2.1 rfl rfl
  · exact hE.2.2.2.2.2 (by decide) (by decide)

/-! ## C3 -/

theorem mem_insertU_self (l : List Expr) (e : Expr) : e ∈ insertU l e := by
  unfold insertU
  by_cases h : e ∈ l
  · simp [h]
  · simp [h]

/-- C3: one step of the current-probe pass (`_processIM`) on a probe
record: the probe's own symbol joins the unknown set; with ground at `n1`
(resp. `n2`) the other endpoint's node-variable entry is substituted by
`0` in every equation and removed from the unknown set; with no grounded
endpoint, `n1`'s entry is substituted by `n2`'s everywhere and `n1`'s
entry — always `n1`'s, never `n2`'s — is removed from the unknown set. -/
theorem claim_C3_thm (s : SState) (cm : Comp) (hk : cm.k = "im") :
    (∀ v, cm.n1 = 0 → s.nodeVars.lookup cm.n2 = some v →
       v ∈ insertU s.unknowns (Expr.sym cm.sy) →
       processIMstep s cm = .ok
         ⟨s.components, s.subsDic, s.nameT, s.symbolT,
          s.equations.map (fun e => e.subsE v (Expr.const 0)),
          (insertU s.unknowns (Expr.sym cm.sy)).erase v,
          s.nodeList, (cm.n2, Expr.const 0) :: s.nodeVars, s.removed ++ [v]⟩ ∧
       (v ≠ Expr.sym cm.sy →
          Expr.sym cm.sy ∈ (insertU s.unknowns (Expr.sym cm.sy)).erase v)) ∧
    (∀ v, cm.n1 ≠ 0 → cm.n2 = 0 → s.nodeVars.lookup cm.n1 = some v →
       v ∈ insertU s.unknowns (Expr.sym cm.sy) →
       processIMstep s cm = .ok
         ⟨s.components, s.subsDic, s.nameT, s.symbolT,
          s.equations.map (fun e => e.subsE v (Expr.const 0)),
          (insertU s.unknowns (Expr.sym cm.sy)).erase v,
          s.nodeList, (cm.n1, Expr.const 0) :: s.nodeVars, s.removed ++ [v]⟩ ∧
       (v ≠ Expr.sym cm.sy →
          Expr.sym cm.sy ∈ (insertU s.unknowns (Expr.sym cm.sy)).erase v)) ∧
    (∀ v1 v2, cm.n1 ≠ 0 → cm.n2 ≠ 0 →
       s.nodeVars.lookup cm.n1 = some v1 → s.nodeVars.lookup cm.n2 = some v2 →
       v1 ∈ insertU s.unknowns (Expr.sym cm.sy) →
       processIMstep s cm = .ok
         ⟨s.components, s.subsDic, s.nameT, s.symbolT,
          s.equations.map (fun e => e.subsE v1 v2),
          (insertU s.unknowns (Expr.sym cm.sy)).erase v1,
          s.nodeList, (cm.n1, v2) :: s.nodeVars, s.removed ++ [v1]⟩ ∧
       (v1 ≠ Expr.sym cm.sy →
          Expr.sym cm.sy ∈ (insertU s.unknowns (Expr.sym cm.sy)).erase v1)) := by
  refine ⟨?_, ?_, ?_⟩
  · intro v h1 hv hmem
    constructor
    · simp [processIMstep, hk, h1, nvGet, hv, substEqs, removeU, hmem, okBind]
    · intro hne
      exact (List.mem_erase_of_ne (Ne.symm hne)).mpr (mem_insertU_self _ _)
  · intro v h1 h2 hv hmem
    constructor
    · simp [processIMstep, hk, h1, h2, nvGet, hv, substEqs, removeU, hmem, okBind]
    · intro hne
      exact (List.mem_erase_of_ne (Ne.symm hne)).mpr (mem_insertU_self _ _)
  · intro v1 v2 h1 h2 hv1 hv2 hmem
    constructor
    · simp [processIMstep, hk, h1, h2, nvGet, hv1, hv2, substEqs, removeU, hmem, okBind]
    · intro hne
      exact (List.mem_erase_of_ne (Ne.symm hne)).mpr (mem_insertU_self _ _)

/-- C3 (witness): the three branches evaluated on a concrete state with
`nodeVars = [(1, v1), (2, v2)]`, `unknowns = [v1, v2]`, one equation
`v1 - v2`, for probes `M` between 0–2, 1–0 and 1–2. -/
theorem claim_C3_witness :
    (processIMstep
        ⟨[], [], [], [], [Expr.sub (Expr.sym "v1") (Expr.sym "v2")],
         [Expr.sym "v1", Expr.sym "v2"], [1, 0, 2],
         [(1, Expr.sym "v1"), (2, Expr.sym "v2")], []⟩
        ⟨"im", "M", 0, 2, none, "M", none, none⟩ = .ok
       ⟨[], [], [], [],
        [(Expr.sub (Expr.sym "v1") (Expr.sym "v2")).subsE (Expr.sym "v2") (Expr.const 0)],
        (insertU [Expr.sym "v1", Expr.sym "v2"] (Expr.sym "M")).erase (Expr.sym "v2"),
        [1, 0, 2], (2, Expr.const 0) :: [(1, Expr.sym "v1"), (2, Expr.sym "v2")],
        [] ++ [Expr.sym "v2"]⟩ ∧
     Expr.sym "M" ∈ (insertU [Expr.sym "v1", Expr.sym "v2"] (Expr.sym "M")).erase (Expr.sym "v2")) ∧
    (processIMstep
        ⟨[], [], [], [], [Expr.sub (Expr.sym "v1") (Expr.sym "v2")],
         [Expr.sym "v1", Expr.sym "v2"], [1, 0, 2],
         [(1, Expr.sym "v1"), (2, Expr.sym "v2")], []⟩
        ⟨"im", "M", 1, 0, none, "M", none, none⟩ = .ok
       ⟨[], [], [], [],
        [(Expr.sub (Expr.sym "v1") (Expr.sym "v2")).subsE (Expr.sym "v1") (Expr.const 0)],
        (insertU [Expr.sym "v1", Expr.sym "v2"] (Expr.sym "M")).erase (Expr.sym "v1"),
        [1, 0, 2], (1, Expr.const 0) :: [(1, Expr.sym "v1"), (2, Expr.sym "v2")],
        [] ++ [Expr.sym "v1"]⟩) ∧
    (processIMstep
        ⟨[], [], [], [], [Expr.sub (Expr.sym "v1") (Expr.sym "v2")],
         [Expr.sym "v1", Expr.sym "v2"], [1, 0, 2],
         [(1, Expr.sym "v1"), (2, Expr.sym "v2")], []⟩
        ⟨"im", "M", 1, 2, none, "M", none, none⟩ = .ok
       ⟨[], [], [], [],
        [(Expr.sub (Expr.sym "v1") (Expr.sym "v2")).subsE (Expr.sym "v1") (Expr.sym "v2")],
        (insertU [Expr.sym "v1", Expr.sym "v2"] (Expr.sym "M")).erase (Expr.sym "v1"),
        [1, 0, 2], (1, Expr.sym "v2") :: [(1, Expr.sym "v1"), (2, Expr.sym "v2")],
        [] ++ [Expr.sym "v1"]⟩) := by
  have hA := claim_C3_thm
    ⟨[], [], [], [], [Expr.sub (Expr.sym "v1") (Expr.sym "v2")],
     [Expr.sym "v1", Expr.sym "v2"], [1, 0, 2],
     [(1, Expr.sym "v1"), (2, Expr.sym "v2")], []⟩
    ⟨"im", "M", 0, 2, none, "M", none, none⟩ rfl
  have hB := claim_C3_thm
    ⟨[], [], [], [], [Expr.sub (Expr.sym "v1") (Expr.sym "v2")],
     [Expr.sym "v1", Expr.sym "v2"], [1, 0, 2],
     [(1, Expr.sym "v1"), (2, Expr.sym "v2")], []⟩
    ⟨"im", "M", 1, 0, none, "M", none, none⟩ rfl
  have hC := claim_C3_thm
    ⟨[], [], [], [], [Expr.sub (Expr.sym "v1") (Expr.sym "v2")],
     [Expr.sym "v1", Expr.sym "v2"], [1, 0, 2],
     [(1, Expr.sym "v1"), (2, Expr.sym "v2")], []⟩
    ⟨"im", "M", 1, 2, none, "M", none, none⟩ rfl
  have h1 := hA.1 (Expr.sym "v2") rfl (by decide) (by decide)
  have h2 := hB.2.1 (Expr.sym "v1") (by decide) rfl (by decide) (by decide)
  have h3 := hC.2.2 (Expr.sym "v1") (Expr.sym "v2") (by decide) (by decide)
    (by decide) (by decide) (by decide)
  exact ⟨⟨h1.1, h1.2 (by decide)⟩, h2.1, h3.1⟩

/-! ## C4 -/

/-- C4: one step of the voltage-probe pass (`_processVM`) on a probe
record: the probe's symbol joins the unknown set; with ground at `n1`
(resp. `n2`) the other endpoint's node-variable entry is substituted
throughout by `-probe` (resp. `+probe`) and removed from the unknowns;
when that entry is no longer in the unknown set (already eliminated by an
earlier pass) the guarded removal instead appends the equality
`Eq(probe, nodeVars[other])`; with no grounded endpoint the equality
`Eq(probe, v_n1 - v_n2)` is appended and nothing is eliminated. -/
theorem claim_C4_thm (s : SState) (cm : Comp) (hk : cm.k = "vm") :
    (∀ v, cm.n1 = 0 → s.nodeVars.lookup cm.n2 = some v →
       v ∈ insertU s.unknowns (Expr.sym cm.sy) →
       processVMstep s cm = .ok
         ⟨s.components, s.subsDic, s.nameT, s.symbolT,
          s.equations.map (fun e => e.subsE v (Expr.negE (Expr.sym cm.sy))),
          (insertU s.unknowns (Expr.sym cm.sy)).erase v,
          s.nodeList, s.nodeVars, s.removed ++ [v]⟩ ∧
       (v ≠ Expr.sym cm.sy →
          Expr.sym cm.sy ∈ (insertU s.unknowns (Expr.sym cm.sy)).erase v)) ∧
    (∀ v, cm.n1 = 0 → s.nodeVars.lookup cm.n2 = some v →
       v ∉ insertU s.unknowns (Expr.sym cm.sy) →
       processVMstep s cm = .ok
         ⟨s.components, s.subsDic, s.nameT, s.symbolT,
          s.equations.map (fun e => e.subsE v (Expr.negE (Expr.sym cm.sy))) ++
            [Expr.eqE (Expr.sym cm.sy) v],
          insertU s.unknowns (Expr.sym cm.sy),
          s.nodeList, s.nodeVars, s.removed⟩ ∧
       Expr.sym cm.sy ∈ insertU s.unknowns (Expr.sym cm.sy)) ∧
    (∀ v, cm.n1 ≠ 0 → cm.n2 = 0 → s.nodeVars.lookup cm.n1 = some v →
       v ∈ insertU s.unknowns (Expr.sym cm.sy) →
       processVMstep s cm = .ok
         ⟨s.components, s.subsDic, s.nameT, s.symbolT,
          s.equations.map (fun e => e.subsE v (Expr.sym cm.sy)),
          (insertU s.unknowns (Expr.sym cm.sy)).erase v,
          s.nodeList, s.nodeVars, s.removed ++ [v]⟩ ∧
       (v ≠ Expr.sym cm.sy →
          Expr.sym cm.sy ∈ (insertU s.unknowns (Expr.sym cm.sy)).erase v)) ∧
    (∀ v, cm.n1 ≠ 0 → cm.n2 = 0 → s.nodeVars.lookup cm.n1 = some v →
       v ∉ insertU s.unknowns (Expr.sym cm.sy) →
       processVMstep s cm = .ok
         ⟨s.components, s.subsDic, s.nameT, s.symbolT,
          s.equations.map (fun e => e.subsE v (Expr.sym cm.sy)) ++
            [Expr.eqE (Expr.sym cm.sy) v],
          insertU s.unknowns (Expr.sym cm.sy),
          s.nodeList, s.nodeVars, s.removed⟩ ∧
       Expr.sym cm.sy ∈ insertU s.unknowns (Expr.sym cm.sy)) ∧
    (∀ v1 v2, cm.n1 ≠ 0 → cm.n2 ≠ 0 →
       s.nodeVars.lookup cm.n1 = some v1 → s.nodeVars.lookup cm.n2 = some v2 →
       processVMstep s cm = .ok
         ⟨s.components, s.subsDic, s.nameT, s.symbolT,
          s.equations ++ [Expr.eqE (Expr.sym cm.sy) (Expr.sub v1 v2)],
          insertU s.unknowns (Expr.sym cm.sy),
          s.nodeList, s.nodeVars, s.removed⟩ ∧
       Expr.sym cm.sy ∈ insertU s.unknowns (Expr.sym cm.sy)) := by
  refine ⟨?_, ?_, ?_, ?_, ?_⟩
  · intro v h1 hv hmem
    refine ⟨?_, fun hne => (List.mem_erase_of_ne (Ne.symm hne)).mpr (mem_insertU_self _ _)⟩
    simp [processVMstep, hk, h1, nvGet, hv, substEqs, hmem, okBind]
  · intro v h1 hv hmem
    refine ⟨?_, mem_insertU_self _ _⟩
    simp [processVMstep, hk, h1, nvGet, hv, substEqs, hmem, okBind]
  · intro v h1 h2 hv hmem
    refine ⟨?_, fun hne => (List.mem_erase_of_ne (Ne.symm hne)).mpr (mem_insertU_self _ _)⟩
    simp [processVMstep, hk, h1, h2, nvGet, hv, substEqs, hmem, okBind]
  · intro v h1 h2 hv hmem
    refine ⟨?_, mem_insertU_self _ _⟩
    simp [processVMstep, hk, h1, h2, nvGet, hv, substEqs, hmem, okBind]
  · intro v1 v2 h1 h2 hv1 hv2
    refine ⟨?_, mem_insertU_self _ _⟩
    simp [processVMstep, hk, h1, h2, nvGet, hv1, hv2, okBind]

/-- C4 (witness): the five branches on concrete states — probes `P`
between 0–2, 1–0 and 1–2 on a state whose unknowns still hold `v1`, `v2`,
and probes between 0–2 and 1–0 on a state with an empty unknown set
(modelling a previously eliminated node variable). -/
theorem claim_C4_witness :
    (processVMstep
        ⟨[], [], [], [], [Expr.sym "v2"], [Expr.sym "v1", Expr.sym "v2"], [1, 0, 2],
         [(1, Expr.sym "v1"), (2, Expr.sym "v2")], []⟩
        ⟨"vm", "P", 0, 2, none, "P", none, none⟩ = .ok
       ⟨[], [], [], [],
        [(Expr.sym "v2").subsE (Expr.sym "v2") (Expr.negE (Expr.sym "P"))],
        (insertU [Expr.sym "v1", Expr.sym "v2"] (Expr.sym "P")).erase (Expr.sym "v2"),
        [1, 0, 2], [(1, Expr.sym "v1"), (2, Expr.sym "v2")], [] ++ [Expr.sym "v2"]⟩) ∧
    (processVMstep
        ⟨[], [], [], [], [Expr.sym "v2"], [], [1, 0, 2],
         [(1, Expr.sym "v1"), (2, Expr.sym "v2")], []⟩
        ⟨"vm", "P", 0, 2, none, "P", none, none⟩ = .ok
       ⟨[], [], [], [],
        [(Expr.sym "v2").subsE (Expr.sym "v2") (Expr.negE (Expr.sym "P"))] ++
          [Expr.eqE (Expr.sym "P") (Expr.sym "v2")],
        insertU [] (Expr.sym "P"), [1, 0, 2],
        [(1, Expr.sym "v1"), (2, Expr.sym "v2")], []⟩) ∧
    (processVMstep
        ⟨[], [], [], [], [Expr.sym "v2"], [Expr.sym "v1", Expr.sym "v2"], [1, 0, 2],
         [(1, Expr.sym "v1"), (2, Expr.sym "v2")], []⟩
        ⟨"vm", "P", 1, 0, none, "P", none, none⟩ = .ok
       ⟨[], [], [], [],
        [(Expr.sym "v2").subsE (Expr.sym "v1") (Expr.sym "P")],
        (insertU [Expr.sym "v1", Expr.sym "v2"] (Expr.sym "P")).erase (Expr.sym "v1"),
        [1, 0, 2], [(1, Expr.sym "v1"), (2, Expr.sym "v2")], [] ++ [Expr.sym "v1"]⟩) ∧
    (processVMstep
        ⟨[], [], [], [], [Expr.sym "v2"], [], [1, 0, 2],
         [(1, Expr.sym "v1"), (2, Expr.sym "v2")], []⟩
        ⟨"vm", "P", 1, 0, none, "P", none, none⟩ = .ok
       ⟨[], [], [], [],
        [(Expr.sym "v2").subsE (Expr.sym "v1") (Expr.sym "P")] ++
          [Expr.eqE (Expr.sym "P") (Expr.sym "v1")],
        insertU [] (Expr.sym "P"), [1, 0, 2],
        [(1, Expr.sym "v1"), (2, Expr.sym "v2")], []⟩) ∧
    (processVMstep
        ⟨[], [], [], [], [Expr.sym "v2"], [Expr.sym "v1", Expr.sym "v2"], [1, 0, 2],
         [(1, Expr.sym "v1"), (2, Expr.sym "v2")], []⟩
        ⟨"vm", "P", 1, 2, none, "P", none, none⟩ = .ok
       ⟨[], [], [], [],
        [Expr.sym "v2"] ++ [Expr.eqE (Expr.sym "P") (Expr.sub (Expr.sym "v1") (Expr.sym "v2"))],
        insertU [Expr.sym "v1", Expr.sym "v2"] (Expr.sym "P"),
        [1, 0, 2], [(1, Expr.sym "v1"), (2, Expr.sym "v2")], []⟩) := by
  have hA := claim_C4_thm
    ⟨[], [], [], [], [Expr.sym "v2"], [Expr.sym "v1", Expr.sym "v2"], [1, 0, 2],
     [(1, Expr.sym "v1"), (2, Expr.sym "v2")], []⟩
    ⟨"vm", "P", 0, 2, none, "P", none, none⟩ rfl
  have hB := claim_C4_thm
    ⟨[], [], [], [], [Expr.sym "v2"], [], [1, 0, 2],
     [(1, Expr.sym "v1"), (2, Expr.sym "v2")], []⟩
    ⟨"vm", "P", 0, 2, none, "P", none, none⟩ rfl
  have hC := claim_C4_thm
    ⟨[], [], [], [], [Expr.sym "v2"], [Expr.sym "v1", Expr.sym "v2"], [1, 0, 2],
     [(1, Expr.sym "v1"), (2, Expr.sym "v2")], []⟩
    ⟨"vm", "P", 1, 0, none, "P", none, none⟩ rfl
  have hD := claim_C4_thm
    ⟨[], [], [], [], [Expr.sym "v2"], [], [1, 0, 2],
     [(1, Expr.sym "v1"), (2, Expr.sym "v2")], []⟩
    ⟨"vm", "P", 1, 0, none, "P", none, none⟩ rfl
  have hE := claim_C4_thm
    ⟨[], [], [], [], [Expr.sym "v2"], [Expr.sym "v1", Expr.sym "v2"], [1, 0, 2],
     [(1, Expr.sym "v1"), (2, Expr.sym "v2")], []⟩
    ⟨"vm", "P", 1, 2, none, "P", none, none⟩ rfl
  refine ⟨?_, ?_, ?_, ?_, ?_⟩
  · exact (hA.1 (Expr.sym "v2") rfl (by decide) (by decide)).1
  · exact (hB.2.1 (Expr.sym "v2") rfl (by decide) (by decide)).1
  · exact (hC.2.2.1 (Expr.sym "v1") (by decide) rfl (by decide) (by decide)).1
  · exact (hD.2.2.2.1 (Expr.sym "v1") (by decide) rfl (by decide) (by decide)).1
  · exact (hE.2.2.2.2 (Expr.sym "v1") (Expr.sym "v2") (by decide) (by decide)
      (by decide) (by decide)).1

/-! ## C5 -/

/-- `guarded k vc e`: inside `e` the symbol `k` occurs only as the left
factor of the product `k * vc` — the shape `_processCtr`'s substitution
produces.  This is the fidelity statement "`k` never appears in an
equation except multiplied by its controller's symbol". -/
def guarded (k vc : String) : Expr → Bool
  | .const _ => true
  | .sym s => decide (s ≠ k)
  | .add a b => guarded k vc a && guarded k vc b
  | .sub a b => guarded k vc a && guarded k vc b
  | .mul a b =>
      (decide (a = Expr.sym k) && decide (b = Expr.sym vc)) ||
        (guarded k vc a && guarded k vc b)
  | .div a b => guarded k vc a && guarded k vc b
  | .eqE a b => guarded k vc a && guarded k vc b

theorem guarded_subst_self (k vc : String) :
    ∀ e : Expr, guarded k vc (e.subsE (.sym k) (.mul (.sym k) (.sym vc))) = true := by
  intro e
  induction e with
  | const q => simp [Expr.subsE, guarded]
  | sym s =>
    by_cases h : s = k
    · subst h
      simp [Expr.subsE, guarded]
    · simp [Expr.subsE, guarded, h]
  | add a b iha ihb => simp [Expr.subsE, guarded, iha, ihb]
  | sub a b iha ihb => simp [Expr.subsE, guarded, iha, ihb]
  | mul a b iha ihb => simp [Expr.subsE, guarded, iha, ihb]
  | div a b iha ihb => simp [Expr.subsE, guarded, iha, ihb]
  | eqE a b iha ihb => simp [Expr.subsE, guarded, iha, ihb]

theorem guarded_subst_preserve (k vc k' vc' : String)
    (hkk : k' ≠ k) (hvck : vc ≠ k') (hvck' : vc' ≠ k) :
    ∀ e : Expr, guarded k vc e = true →
      guarded k vc (e.subsE (.sym k') (.mul (.sym k') (.sym vc'))) = true := by
  intro e
  induction e with
  | const q => intro _; simp [Expr.subsE, guarded]
  | sym s =>
    intro hg
    by_cases h : s = k'
    · subst h
      simp [Expr.subsE, guarded, hkk, hvck']
    · simp only [Expr.subsE, guarded]
      rw [if_neg (by simp [h])]
      simpa [guarded] using hg
  | add a b iha ihb =>
    intro hg
    simp only [guarded, Bool.and_eq_true] at hg
    simp [Expr.subsE, guarded, iha hg.1, ihb hg.2]
  | sub a b iha ihb =>
    intro hg
    simp only [guarded, Bool.and_eq_true] at hg
    simp [Expr.subsE, guarded, iha hg.1, ihb hg.2]
  | mul a b iha ihb =>
    intro hg
    simp only [guarded, Bool.or_eq_true, Bool.and_eq_true, decide_eq_true_eq] at hg
    rcases hg with ⟨ha, hb⟩ | ⟨ha, hb⟩
    · subst ha
      subst hb
      have h1 : ¬ (k = k') := fun h => hkk h.symm
      have h2 : ¬ (vc = k') := hvck
      simp [Expr.subsE, guarded, h1, h2]
    · simp [Expr.subsE, guarded, iha ha, ihb hb]
  | div a b iha ihb =>
    intro hg
    simp only [guarded, Bool.and_eq_true] at hg
    simp [Expr.subsE, guarded, iha hg.1, ihb hg.2]
  | eqE a b iha ihb =>
    intro hg
    simp only [guarded, Bool.and_eq_true] at hg
    simp [Expr.subsE, guarded, iha hg.1, ihb hg.2]

theorem ctr_fold_preserve (k vc : String) :
    ∀ (comps : List Comp) (st : SState),
      (∀ c' ∈ comps, (c'.k = "cvs" ∨ c'.k = "cis") →
         c'.sy ≠ k ∧ vc ≠ c'.sy ∧ c'.ctr.getD "" ≠ k) →
      (∀ e ∈ st.equations, guarded k vc e = true) →
      ∀ e ∈ (comps.foldl ctrStep st).equations, guarded k vc e = true := by
  intro comps
  induction comps with
  | nil => intro st _ hst; simpa using hst
  | cons c rest ih =>
    intro st hc hst
    simp only [List.foldl_cons]
    apply ih
    · intro c' hc' hk'
      exact hc c' (List.mem_cons_of_mem _ hc') hk'
    · intro e he
      unfold ctrStep at he
      by_cases hck : c.k = "cvs" ∨ c.k = "cis"
      · rw [if_pos hck] at he
        simp only [substEqs, List.mem_map] at he
        obtain ⟨e0, he0, rfl⟩ := he
        obtain ⟨h1, h2, h3⟩ := hc c (List.mem_cons_self _ _) hck
        exact guarded_subst_preserve k vc c.sy (c.ctr.getD "") h1 h2 h3 e0 (hst e0 he0)
      · rw [if_neg hck] at he
        exact hst e he

theorem ctr_go :
    ∀ (comps : List Comp) (st : SState) (cm : Comp),
      cm ∈ comps → (cm.k = "cvs" ∨ cm.k = "cis") →
      ((comps.filter (fun c => c.k = "cvs" ∨ c.k = "cis")).map Comp.sy).Nodup →
      (∀ c1 ∈ comps, ∀ c2 ∈ comps, (c1.k = "cvs" ∨ c1.k = "cis") →
         (c2.k = "cvs" ∨ c2.k = "cis") → c1.ctr.getD "" ≠ c2.sy) →
      ∀ e ∈ (comps.foldl ctrStep st).equations,
        guarded cm.sy (cm.ctr.getD "") e = true := by
  intro comps
  induction comps with
  | nil => intro st cm hmem; exact absurd hmem (List.not_mem_nil _)
  | cons c rest ih =>
    intro st cm hmem hk hnodup hctr
    rcases List.mem_cons.mp hmem with rfl | hmemr
    · simp only [List.foldl_cons]
      have hnodup' : (cm.sy ∉ (rest.filter
            (fun c => decide (c.k = "cvs" ∨ c.k = "cis"))).map Comp.sy) ∧
          ((rest.filter (fun c => decide (c.k = "cvs" ∨ c.k = "cis"))).map Comp.sy).Nodup := by
        rw [List.filter_cons_of_pos (by simpa using hk)] at hnodup
        simpa [List.nodup_cons] using hnodup
      apply ctr_fold_preserve
      · intro c' hc' hk'
        refine ⟨?_, ?_, ?_⟩
        · intro hEq
          apply hnodup'.1
          rw [← hEq]
          exact List.mem_map_of_mem _ (List.mem_filter.mpr ⟨hc', by simpa using hk'⟩)
        · exact hctr cm (List.mem_cons_self _ _) c' (List.mem_cons_of_mem _ hc') hk hk'
        · exact hctr c' (List.mem_cons_of_mem _ hc') cm (List.mem_cons_self _ _) hk' hk
      · intro e he
        unfold ctrStep at he
        rw [if_pos hk] at he
        simp only [substEqs, List.mem_map] at he
        obtain ⟨e0, _, rfl⟩ := he
        exact guarded_subst_self cm.sy (cm.ctr.getD "") e0
    · simp only [List.foldl_cons]
      apply ih (ctrStep st c) cm hmemr hk
      · by_cases hck : (c.k = "cvs" ∨ c.k = "cis")
        · rw [List.filter_cons_of_pos (by simpa using hck)] at hnodup
          exact (List.nodup_cons.mp (by simpa using hnodup)).2
        · rwa [List.filter_cons_of_neg (by simpa using hck)] at hnodup
      · intro c1 h1 c2 h2 hk1 hk2
        exact hctr c1 (List.mem_cons_of_mem _ h1) c2 (List.mem_cons_of_mem _ h2) hk1 hk2

/-- C5: after the controlled-source pass (`_processCtr`), for every
controlled voltage or current source with gain symbol `k` and controller
symbol `Vc` — provided the gain symbols of the controlled sources are
pairwise distinct and no controller symbol coincides with a gain symbol,
as holds for distinctly named components — every equation satisfies
`guarded`: `k` occurs only as the left factor of the product `k * Vc`,
never as a bare symbol. -/
theorem claim_C5_thm (st : SState) (cm : Comp) (hmem : cm ∈ st.components)
    (hk : cm.k = "cvs" ∨ cm.k = "cis")
    (hnodup : ((st.components.filter
        (fun c => c.k = "cvs" ∨ c.k = "cis")).map Comp.sy).Nodup)
    (hctr : ∀ c1 ∈ st.components, ∀ c2 ∈ st.components,
       (c1.k = "cvs" ∨ c1.k = "cis") → (c2.k = "cvs" ∨ c2.k = "cis") →
       c1.ctr.getD "" ≠ c2.sy) :
    ∀ e ∈ (processCtr st).equations, guarded cm.sy (cm.ctr.getD "") e = true :=
  ctr_go st.components st cm hmem hk hnodup hctr

/-- C5 (witness): a state containing one controlled voltage source `G`
with controller `Vc` and one controlled current source `H` with controller
`Wc`, whose equations mention both gains bare; after the pass every
equation is `guarded` for `G`. -/
theorem claim_C5_witness :
    ((processCtr
        ⟨[⟨"cvs", "G", 1, 2, none, "G", some "iG", some "Vc"⟩,
          ⟨"cis", "H", 2, 0, none, "H", none, some "Wc"⟩],
         [], [], [],
         [Expr.add (Expr.sym "G") (Expr.sym "H"),
          Expr.eqE (Expr.sym "G") (Expr.sub (Expr.sym "v1") (Expr.sym "v2"))],
         [], [], [], []⟩).equations.all (fun e => guarded "G" "Vc" e)) = true := by
  have h := claim_C5_thm
    ⟨[⟨"cvs", "G", 1, 2, none, "G", some "iG", some "Vc"⟩,
      ⟨"cis", "H", 2, 0, none, "H", none, some "Wc"⟩],
     [], [], [],
     [Expr.add (Expr.sym "G") (Expr.sym "H"),
      Expr.eqE (Expr.sym "G") (Expr.sub (Expr.sym "v1") (Expr.sym "v2"))],
     [], [], [], []⟩
    ⟨"cvs", "G", 1, 2, none, "G", some "iG", some "Vc"⟩
    (by decide) (by decide) (by decide) (by decide)
  exact List.all_eq_true.mpr h

/-! ## C8 -/

/-- The node-voltage symbols `solve()` creates: one per discovered
non-ground node. -/
def nodeSymsOf (c : Circuit) : List Expr :=
  ((nodesOf c.components).filter (fun n => n ≠ 0)).map (fun n => Expr.sym ("v" ++ toString n))

/-- The branch-current symbols the voltage-source pass adds. -/
def isymsOf (c : Circuit) : List Expr :=
  (c.components.filter (fun cm => cm.k = "vs" ∨ cm.k = "cvs")).map
    (fun cm => Expr.sym (cm.isy.getD ""))

/-- The current-probe symbols the current-probe pass adds. -/
def imSymsOf (c : Circuit) : List Expr :=
  (c.components.filter (fun cm => cm.k = "im")).map (fun cm => Expr.sym cm.sy)

/-- The voltage-probe symbols the voltage-probe pass adds. -/
def vmSymsOf (c : Circuit) : List Expr :=
  (c.components.filter (fun cm => cm.k = "vm")).map (fun cm => Expr.sym cm.sy)

theorem lookup_some_mem_values {α β : Type} [DecidableEq α] :
    ∀ (l : List (α × β)) (n : α) (w : β), l.lookup n = some w → w ∈ l.map Prod.snd := by
  intro l
  induction l with
  | nil => intro n w h; simp [List.lookup] at h
  | cons p rest ih =>
    intro n w h
    rw [List.lookup_cons] at h
    by_cases hn : (n == p.1) = true
    · rw [hn] at h
      simp only [Option.some.injEq] at h
      subst h
      simp
    · rw [Bool.not_eq_true] at hn
      rw [hn] at h
      exact List.mem_cons_of_mem _ (ih n w h)

theorem foldl_insertU_of_fresh :
    ∀ (xs l : List Expr), xs.Nodup → (∀ x ∈ xs, x ∉ l) →
      List.foldl insertU l xs = l ++ xs := by
  intro xs
  induction xs with
  | nil => intro l _ _; simp
  | cons x rest ih =>
    intro l hnd hfr
    simp only [List.foldl_cons]
    have hx : x ∉ l := hfr x (List.mem_cons_self _ _)
    have h1 : insertU l x = l ++ [x] := by simp [insertU, hx]
    rw [h1, ih (l ++ [x]) (List.nodup_cons.mp hnd).2]
    · simp
    · intro y hy
      simp only [List.mem_append, List.mem_singleton]
      rintro (hl | rfl)
      · exact hfr y (List.mem_cons_of_mem _ hy) hl
      · exact (List.nodup_cons.mp hnd).1 hy

theorem kclStep_fields (s : SState) (node : ℤ) :
    (kclStep s node).unknowns = s.unknowns ∧
    (kclStep s node).nodeVars = s.nodeVars ∧
    (kclStep s node).removed = s.removed ∧
    (kclStep s node).components = s.components := by
  unfold kclStep
  by_cases h : node ≠ 0 <;> simp [h]

theorem kcl_fold_fields :
    ∀ (nodes : List ℤ) (s : SState),
      (nodes.foldl kclStep s).unknowns = s.unknowns ∧
      (nodes.foldl kclStep s).nodeVars = s.nodeVars ∧
      (nodes.foldl kclStep s).removed = s.removed ∧
      (nodes.foldl kclStep s).components = s.components := by
  intro nodes
  induction nodes with
  | nil => intro s; exact ⟨rfl, rfl, rfl, rfl⟩
  | cons n rest ih =>
    intro s
    simp only [List.foldl_cons]
    obtain ⟨h1, h2, h3, h4⟩ := ih (kclStep s n)
    obtain ⟨g1, g2, g3, g4⟩ := kclStep_fields s n
    exact ⟨h1.trans g1, h2.trans g2, h3.trans g3, h4.trans g4⟩

theorem vsStep_fields (s : SState) (cm : Comp) :
    (vsStep s cm).unknowns =
      (if cm.k = "vs" ∨ cm.k = "cvs" then insertU s.unknowns (Expr.sym (cm.isy.getD ""))
       else s.unknowns) ∧
    (vsStep s cm).nodeVars = s.nodeVars ∧
    (vsStep s cm).removed = s.removed ∧
    (vsStep s cm).components = s.components := by
  unfold vsStep
  by_cases h : cm.k = "vs" ∨ cm.k = "cvs"
  · by_cases h1 : cm.n1 = 0
    · simp [h, h1]
    · by_cases h2 : cm.n2 = 0 <;> simp [h, h1, h2]
  · simp [h]

theorem vs_fold_fields :
    ∀ (comps : List Comp) (s : SState),
      (comps.foldl vsStep s).unknowns =
        List.foldl insertU s.unknowns
          ((comps.filter (fun cm => cm.k = "vs" ∨ cm.k = "cvs")).map
            (fun cm => Expr.sym (cm.isy.getD ""))) ∧
      (comps.foldl vsStep s).nodeVars = s.nodeVars ∧
      (comps.foldl vsStep s).removed = s.removed ∧
      (comps.foldl vsStep s).components = s.components := by
  intro comps
  induction comps with
  | nil => intro s; exact ⟨rfl, rfl, rfl, rfl⟩
  | cons cm rest ih =>
    intro s
    simp only [List.foldl_cons, List.filter_cons]
    obtain ⟨h1, h2, h3, h4⟩ := ih (vsStep s cm)
    obtain ⟨g1, g2, g3, g4⟩ := vsStep_fields s cm
    by_cases h : cm.k = "vs" ∨ cm.k = "cvs"
    · rw [if_pos h] at g1
      refine ⟨?_, h2.trans g2, h3.trans g3, h4.trans g4⟩
      rw [h1, g1]
      simp [h]
    · rw [if_neg h] at g1
      refine ⟨?_, h2.trans g2, h3.trans g3, h4.trans g4⟩
      rw [h1, g1]
      simp [h]

theorem ctrStep_fields (s : SState) (cm : Comp) :
    (ctrStep s cm).unknowns = s.unknowns ∧
    (ctrStep s cm).nodeVars = s.nodeVars ∧
    (ctrStep s cm).removed = s.removed ∧
    (ctrStep s cm).components = s.components := by
  unfold ctrStep
  by_cases h : cm.k = "cvs" ∨ cm.k = "cis" <;> simp [h, substEqs]

theorem ctr_fold_fields :
    ∀ (comps : List Comp) (s : SState),
      (comps.foldl ctrStep s).unknowns = s.unknowns ∧
      (comps.foldl ctrStep s).nodeVars = s.nodeVars ∧
      (comps.foldl ctrStep s).removed = s.removed ∧
      (comps.foldl ctrStep s).components = s.components := by
  intro comps
  induction comps with
  | nil => intro s; exact ⟨rfl, rfl, rfl, rfl⟩
  | cons cm rest ih =>
    intro s
    simp only [List.foldl_cons]
    obtain ⟨h1, h2, h3, h4⟩ := ih (ctrStep s cm)
    obtain ⟨g1, g2, g3, g4⟩ := ctrStep_fields s cm
    exact ⟨h1.trans g1, h2.trans g2, h3.trans g3, h4.trans g4⟩

theorem nvStep_fields (s : SState) (node : ℤ) :
    (nvStep s node).unknowns =
      (if node = 0 then s.unknowns
       else insertU s.unknowns (Expr.sym ("v" ++ toString node))) ∧
    (nvStep s node).nodeVars =
      (if node = 0 then s.nodeVars
       else s.nodeVars ++ [(node, Expr.sym ("v" ++ toString node))]) ∧
    (nvStep s node).removed = s.removed ∧
    (nvStep s node).components = s.components ∧
    (nvStep s node).equations = s.equations := by
  unfold nvStep
  by_cases h : node = 0 <;> simp [h]

theorem nv_fold_fields :
    ∀ (nodes : List ℤ) (s : SState),
      (nodes.foldl nvStep s).unknowns =
        List.foldl insertU s.unknowns
          ((nodes.filter (fun n => n ≠ 0)).map (fun n => Expr.sym ("v" ++ toString n))) ∧
      (nodes.foldl nvStep s).nodeVars =
        s.nodeVars ++
          ((nodes.filter (fun n => n ≠ 0)).map (fun n => (n, Expr.sym ("v" ++ toString n)))) ∧
      (nodes.foldl nvStep s).removed = s.removed ∧
      (nodes.foldl nvStep s).components = s.components ∧
      (nodes.foldl nvStep s).equations = s.equations := by
  intro nodes
  induction nodes with
  | nil => intro s; refine ⟨rfl, by simp, rfl, rfl, rfl⟩
  | cons n rest ih =>
    intro s
    simp only [List.foldl_cons, List.filter_cons]
    obtain ⟨h1, h2, h3, h4, h5⟩ := ih (nvStep s n)
    obtain ⟨g1, g2, g3, g4, g5⟩ := nvStep_fields s n
    by_cases h : n = 0
    · rw [if_pos h] at g1 g2
      refine ⟨?_, ?_, h3.trans g3, h4.trans g4, h5.trans g5⟩
      · rw [h1, g1]; simp [h]
      · rw [h2, g2]; simp [h]
    · rw [if_neg h] at g1 g2
      refine ⟨?_, ?_, h3.trans g3, h4.trans g4, h5.trans g5⟩
      · rw [h1, g1]; simp [h]
      · rw [h2, g2]; simp [h]

theorem filter_notin_nil (l : List Expr) :
    l.filter (fun v => v ∉ ([] : List Expr)) = l := by
  simp

theorem filter_remove_one (NS R : List Expr) (v : Expr) (hnd : NS.Nodup) :
    (NS.filter (fun x => x ∉ R)).erase v = NS.filter (fun x => x ∉ R ++ [v]) := by
  rw [(hnd.filter _).erase_eq_filter]
  rw [List.filter_filter]
  apply List.filter_congr
  intro x _
  simp only [List.mem_append, List.mem_singleton, decide_not, Bool.not_eq_true',
    Bool.and_eq_true, decide_eq_true_eq, Bool.not_eq_true, decide_eq_false_iff_not,
    Bool.decide_and]
  by_cases h1 : x = v
  · simp [h1]
  · by_cases h2 : x ∈ R <;> simp [h1, h2]

theorem length_filter_notin :
    ∀ (R NS : List Expr), NS.Nodup → R.Nodup → (∀ r ∈ R, r ∈ NS) →
      (NS.filter (fun x => x ∉ R)).length + R.length = NS.length := by
  intro R
  induction R with
  | nil => intro NS _ _ _; simp
  | cons r R' ih =>
    intro NS hNS hR hsub
    have hr : r ∈ NS := hsub r (List.mem_cons_self _ _)
    have hrR' : r ∉ R' := (List.nodup_cons.mp hR).1
    have hmem : r ∈ NS.filter (fun x => x ∉ R') := by
      rw [List.mem_filter]
      exact ⟨hr, by simpa using hrR'⟩
    have h1 : NS.filter (fun x => x ∉ (r :: R')) =
        (NS.filter (fun x => x ∉ R')).erase r := by
      rw [filter_remove_one NS R' r hNS]
      apply List.filter_congr
      intro x _
      simp only [List.mem_cons, List.mem_append, List.mem_singleton]
      by_cases h1 : x = r
      · simp [h1]
      · by_cases h2 : x ∈ R' <;> simp [h1, h2]
    have h2 := List.length_erase_of_mem hmem
    have h3 := ih NS hNS (List.nodup_cons.mp hR).2
      (fun x hx => hsub x (List.mem_cons_of_mem _ hx))
    have hpos : 0 < (NS.filter (fun x => x ∉ R')).length := List.length_pos_of_mem hmem
    rw [h1, h2]
    simp only [List.length_cons]
    omega

theorem insertU_perm_inv {NS B : List Expr} {st : SState} {p : Expr}
    (hperm : st.unknowns.Perm (NS.filter (fun v => v ∉ st.removed) ++ B))
    (hpNS : p ∉ NS) (hpB : p ∉ B) :
    insertU st.unknowns p = st.unknowns ++ [p] ∧
    (st.unknowns ++ [p]).Perm (NS.filter (fun v => v ∉ st.removed) ++ (B ++ [p])) := by
  have hpu : p ∉ st.unknowns := by
    intro hmem
    rcases (List.mem_append.mp (hperm.mem_iff.mp hmem)) with hf | hb
    · exact hpNS (List.mem_filter.mp hf).1
    · exact hpB hb
  refine ⟨by simp [insertU, hpu], ?_⟩
  have := hperm.append_right [p]
  rwa [List.append_assoc] at this

theorem probe_erase_inv {NS B : List Expr} {st : SState} {p v : Expr}
    (hNS : NS.Nodup)
    (hperm : st.unknowns.Perm (NS.filter (fun x => x ∉ st.removed) ++ B))
    (hsub : ∀ r ∈ st.removed, r ∈ NS) (hrnd : st.removed.Nodup)
    (hB : ∀ x ∈ B, (∃ s, x = Expr.sym s) ∧ x ∉ NS)
    (hpsym : ∃ s, p = Expr.sym s) (hpNS : p ∉ NS) (hpB : p ∉ B)
    (hvNV : v = Expr.const 0 ∨ v ∈ NS)
    (hmem : v ∈ insertU st.unknowns p) :
    v ∈ NS ∧ v ∉ st.removed ∧
    ((insertU st.unknowns p).erase v).Perm
      (NS.filter (fun x => x ∉ st.removed ++ [v]) ++ (B ++ [p])) ∧
    (∀ r ∈ st.removed ++ [v], r ∈ NS) ∧ (st.removed ++ [v]).Nodup := by
  obtain ⟨hins, hperm2⟩ := insertU_perm_inv hperm hpNS hpB
  rw [hins] at hmem
  have hvfilter : v ∈ NS.filter (fun x => x ∉ st.removed) := by
    rcases List.mem_append.mp hmem with hv1 | hv2
    · rcases List.mem_append.mp (hperm.mem_iff.mp hv1) with hf | hb
      · exact hf
      · rcases hvNV with rfl | hvNS
        · obtain ⟨s, hs⟩ := (hB _ hb).1
          exact absurd hs (by simp)
        · exact absurd hvNS (hB _ hb).2
    · rw [List.mem_singleton] at hv2
      subst hv2
      rcases hvNV with h0 | hvNS
      · obtain ⟨s, hs⟩ := hpsym
        rw [hs] at h0
        exact absurd h0 (by simp)
      · exact absurd hvNS hpNS
  have hvNS : v ∈ NS := (List.mem_filter.mp hvfilter).1
  have hvrem : v ∉ st.removed := by
    have := (List.mem_filter.mp hvfilter).2
    simpa using this
  refine ⟨hvNS, hvrem, ?_, ?_, ?_⟩
  · rw [hins]
    have herase := hperm2.erase v
    have hleft : ((NS.filter (fun x => x ∉ st.removed)) ++ (B ++ [p])).erase v =
        (NS.filter (fun x => x ∉ st.removed)).erase v ++ (B ++ [p]) :=
      List.erase_append_left _ hvfilter
    rw [hleft] at herase
    rw [filter_remove_one NS st.removed v hNS] at herase
    exact herase
  · intro r hr
    rcases List.mem_append.mp hr with h1 | h2
    · exact hsub r h1
    · rw [List.mem_singleton] at h2
      subst h2
      exact hvNS
  · simp [List.nodup_append, hrnd, hvrem]

theorem nv_cons_inv {NS : List Expr} {nvs : List (ℤ × Expr)}
    (hnv : ∀ n w, nvs.lookup n = some w → w = Expr.const 0 ∨ w ∈ NS)
    (m : ℤ) (u : Expr) (hu : u = Expr.const 0 ∨ u ∈ NS) :
    ∀ n w, ((m, u) :: nvs).lookup n = some w → w = Expr.const 0 ∨ w ∈ NS := by
  intro n w h
  rw [List.lookup_cons] at h
  by_cases hb : (n == m) = true
  · rw [hb] at h
    simp only [Option.some.injEq] at h
    subst h
    exact hu
  · rw [Bool.not_eq_true] at hb
    rw [hb] at h
    exact hnv n w h

theorem processIM_go (NS : List Expr) (hNS : NS.Nodup) :
    ∀ (comps : List Comp) (st st' : SState) (B : List Expr),
      List.foldlM processIMstep st comps = .ok st' →
      st.unknowns.Perm (NS.filter (fun v => v ∉ st.removed) ++ B) →
      (∀ r ∈ st.removed, r ∈ NS) → st.removed.Nodup →
      (∀ n w, st.nodeVars.lookup n = some w → w = Expr.const 0 ∨ w ∈ NS) →
      (∀ v ∈ B, (∃ s, v = Expr.sym s) ∧ v ∉ NS) →
      (∀ c ∈ comps, c.k = "im" → Expr.sym c.sy ∉ NS ∧ Expr.sym c.sy ∉ B) →
      ((comps.filter (fun c => c.k = "im")).map (fun c => Expr.sym c.sy)).Nodup →
      st'.unknowns.Perm (NS.filter (fun v => v ∉ st'.removed) ++
        (B ++ (comps.filter (fun c => c.k = "im")).map (fun c => Expr.sym c.sy))) ∧
      (∀ r ∈ st'.removed, r ∈ NS) ∧ st'.removed.Nodup ∧
      (∀ n w, st'.nodeVars.lookup n = some w → w = Expr.const 0 ∨ w ∈ NS) ∧
      st'.components = st.components := by
  intro comps
  induction comps with
  | nil =>
    intro st st' B hfold hperm hsub hrnd hnv hB _ _
    simp only [List.foldlM_nil] at hfold
    have hst : st = st' := Except.ok.inj hfold
    subst hst
    exact ⟨by simpa using hperm, hsub, hrnd, hnv, rfl⟩
  | cons cm rest ih =>
    intro st st' B hfold hperm hsub hrnd hnv hB hfresh hpnodup
    rw [List.foldlM_cons] at hfold
    by_cases hk : cm.k = "im"
    case neg =>
      have hstep : processIMstep st cm = .ok st := by simp [processIMstep, hk]
      rw [hstep, okBind] at hfold
      rw [List.filter_cons_of_neg (by simpa using hk)]
      exact ih st st' B hfold hperm hsub hrnd hnv hB
        (fun c hc hkc => hfresh c (List.mem_cons_of_mem _ hc) hkc)
        (by rwa [List.filter_cons_of_neg (by simpa using hk)] at hpnodup)
    case pos =>
      obtain ⟨hpNS, hpB⟩ := hfresh cm (List.mem_cons_self _ _) hk
      rw [List.filter_cons_of_pos (by simpa using hk)] at hpnodup ⊢
      simp only [List.map_cons, List.nodup_cons] at hpnodup
      obtain ⟨hpnotin, hpnodup2⟩ := hpnodup
      simp only [List.map_cons]
      have hfresh2 : ∀ c ∈ rest, c.k = "im" →
          Expr.sym c.sy ∉ NS ∧ Expr.sym c.sy ∉ B ++ [Expr.sym cm.sy] := by
        intro c hc hkc
        refine ⟨(hfresh c (List.mem_cons_of_mem _ hc) hkc).1, ?_⟩
        intro hmem
        rcases List.mem_append.mp hmem with h1 | h2
        · exact (hfresh c (List.mem_cons_of_mem _ hc) hkc).2 h1
        · rw [List.mem_singleton] at h2
          apply hpnotin
          rw [← h2]
          exact List.mem_map_of_mem _ (List.mem_filter.mpr ⟨hc, by simpa using hkc⟩)
      have hBp : ∀ x ∈ B ++ [Expr.sym cm.sy], (∃ s, x = Expr.sym s) ∧ x ∉ NS := by
        intro x hx
        rcases List.mem_append.mp hx with h1 | h2
        · exact hB x h1
        · rw [List.mem_singleton] at h2
          subst h2
          exact ⟨⟨cm.sy, rfl⟩, hpNS⟩
      have happ : B ++ (Expr.sym cm.sy ::
            (rest.filter (fun c => c.k = "im")).map (fun c => Expr.sym c.sy)) =
          (B ++ [Expr.sym cm.sy]) ++
            (rest.filter (fun c => c.k = "im")).map (fun c => Expr.sym c.sy) := by
        simp
      by_cases hn1 : cm.n1 = 0
      · cases hv : List.lookup cm.n2 st.nodeVars with
        | none =>
          exfalso
          have hstep : processIMstep st cm = .error .keyError := by
            simp [processIMstep, hk, hn1, nvGet, hv, errBind, okBind]
          rw [hstep] at hfold
          exact absurd hfold (by simp [errBind])
        | some v =>
          by_cases hmem : v ∈ insertU st.unknowns (Expr.sym cm.sy)
          · have hstep : processIMstep st cm = .ok
                ⟨st.components, st.subsDic, st.nameT, st.symbolT,
                 st.equations.map (fun e => e.subsE v (Expr.const 0)),
                 (insertU st.unknowns (Expr.sym cm.sy)).erase v,
                 st.nodeList, (cm.n2, Expr.const 0) :: st.nodeVars, st.removed ++ [v]⟩ := by
              simp [processIMstep, hk, hn1, nvGet, hv, substEqs, removeU, hmem, okBind, errBind]
            rw [hstep, okBind] at hfold
            obtain ⟨hvNS, hvrem, hperm2, hsub2, hrnd2⟩ :=
              probe_erase_inv hNS hperm hsub hrnd hB ⟨cm.sy, rfl⟩ hpNS hpB
                (hnv cm.n2 v hv) hmem
            have hres := ih _ st' (B ++ [Expr.sym cm.sy]) hfold hperm2 hsub2 hrnd2
              (nv_cons_inv hnv cm.n2 (Expr.const 0) (Or.inl rfl)) hBp hfresh2 hpnodup2
            rw [happ]
            exact hres
          · exfalso
            have hstep : processIMstep st cm = .error .keyError := by
              simp [processIMstep, hk, hn1, nvGet, hv, substEqs, removeU, hmem, okBind, errBind]
            rw [hstep] at hfold
            exact absurd hfold (by simp [errBind])
      · by_cases hn2 : cm.n2 = 0
        · cases hv : List.lookup cm.n1 st.nodeVars with
          | none =>
            exfalso
            have hstep : processIMstep st cm = .error .keyError := by
              simp [processIMstep, hk, hn1, hn2, nvGet, hv, errBind, okBind]
            rw [hstep] at hfold
            exact absurd hfold (by simp [errBind])
          | some v =>
            by_cases hmem : v ∈ insertU st.unknowns (Expr.sym cm.sy)
            · have hstep : processIMstep st cm = .ok
                  ⟨st.components, st.subsDic, st.nameT, st.symbolT,
                   st.equations.map (fun e => e.subsE v (Expr.const 0)),
                   (insertU st.unknowns (Expr.sym cm.sy)).erase v,
                   st.nodeList, (cm.n1, Expr.const 0) :: st.nodeVars, st.removed ++ [v]⟩ := by
                simp [processIMstep, hk, hn1, hn2, nvGet, hv, substEqs, removeU, hmem, okBind, errBind]
              rw [hstep, okBind] at hfold
              obtain ⟨hvNS, hvrem, hperm2, hsub2, hrnd2⟩ :=
                probe_erase_inv hNS hperm hsub hrnd hB ⟨cm.sy, rfl⟩ hpNS hpB
                  (hnv cm.n1 v hv) hmem
              have hres := ih _ st' (B ++ [Expr.sym cm.sy]) hfold hperm2 hsub2 hrnd2
                (nv_cons_inv hnv cm.n1 (Expr.const 0) (Or.inl rfl)) hBp hfresh2 hpnodup2
              rw [happ]
              exact hres
            · exfalso
              have hstep : processIMstep st cm = .error .keyError := by
                simp [processIMstep, hk, hn1, hn2, nvGet, hv, substEqs, removeU, hmem, okBind, errBind]
              rw [hstep] at hfold
              exact absurd hfold (by simp [errBind])
        · cases hv1 : List.lookup cm.n1 st.nodeVars with
          | none =>
            exfalso
            have hstep : processIMstep st cm = .error .keyError := by
              simp [processIMstep, hk, hn1, hn2, nvGet, hv1, errBind, okBind]
            rw [hstep] at hfold
            exact absurd hfold (by simp [errBind])
          | some v1 =>
            cases hv2 : List.lookup cm.n2 st.nodeVars with
            | none =>
              exfalso
              have hstep : processIMstep st cm = .error .keyError := by
                simp [processIMstep, hk, hn1, hn2, nvGet, hv1, hv2, errBind, okBind]
              rw [hstep] at hfold
              exact absurd hfold (by simp [errBind])
            | some v2 =>
              by_cases hmem : v1 ∈ insertU st.unknowns (Expr.sym cm.sy)
              · have hstep : processIMstep st cm = .ok
                    ⟨st.components, st.subsDic, st.nameT, st.symbolT,
                     st.equations.map (fun e => e.subsE v1 v2),
                     (insertU st.unknowns (Expr.sym cm.sy)).erase v1,
                     st.nodeList, (cm.n1, v2) :: st.nodeVars, st.removed ++ [v1]⟩ := by
                  simp [processIMstep, hk, hn1, hn2, nvGet, hv1, hv2, substEqs, removeU,
                    hmem, okBind, errBind]
                rw [hstep, okBind] at hfold
                obtain ⟨hvNS, hvrem, hperm2, hsub2, hrnd2⟩ :=
                  probe_erase_inv hNS hperm hsub hrnd hB ⟨cm.sy, rfl⟩ hpNS hpB
                    (hnv cm.n1 v1 hv1) hmem
                have hres := ih _ st' (B ++ [Expr.sym cm.sy]) hfold hperm2 hsub2 hrnd2
                  (nv_cons_inv hnv cm.n1 v2 (hnv cm.n2 v2 hv2)) hBp hfresh2 hpnodup2
                rw [happ]
                exact hres
              · exfalso
                have hstep : processIMstep st cm = .error .keyError := by
                  simp [processIMstep, hk, hn1, hn2, nvGet, hv1, hv2, substEqs, removeU,
                    hmem, okBind, errBind]
                rw [hstep] at hfold
                exact absurd hfold (by simp [errBind])

theorem processVM_go (NS : List Expr) (hNS : NS.Nodup) :
    ∀ (comps : List Comp) (st st' : SState) (B : List Expr),
      List.foldlM processVMstep st comps = .ok st' →
      st.unknowns.Perm (NS.filter (fun v => v ∉ st.removed) ++ B) →
      (∀ r ∈ st.removed, r ∈ NS) → st.removed.Nodup →
      (∀ n w, st.nodeVars.lookup n = some w → w = Expr.const 0 ∨ w ∈ NS) →
      (∀ v ∈ B, (∃ s, v = Expr.sym s) ∧ v ∉ NS) →
      (∀ c ∈ comps, c.k = "vm" → Expr.sym c.sy ∉ NS ∧ Expr.sym c.sy ∉ B) →
      ((comps.filter (fun c => c.k = "vm")).map (fun c => Expr.sym c.sy)).Nodup →
      st'.unknowns.Perm (NS.filter (fun v => v ∉ st'.removed) ++
        (B ++ (comps.filter (fun c => c.k = "vm")).map (fun c => Expr.sym c.sy))) ∧
      (∀ r ∈ st'.removed, r ∈ NS) ∧ st'.removed.Nodup ∧
      (∀ n w, st'.nodeVars.lookup n = some w → w = Expr.const 0 ∨ w ∈ NS) ∧
      st'.components = st.components := by
  intro comps
  induction comps with
  | nil =>
    intro st st' B hfold hperm hsub hrnd hnv hB _ _
    simp only [List.foldlM_nil] at hfold
    have hst : st = st' := Except.ok.inj hfold
    subst hst
    exact ⟨by simpa using hperm, hsub, hrnd, hnv, rfl⟩
  | cons cm rest ih =>
    intro st st' B hfold hperm hsub hrnd hnv hB hfresh hpnodup
    rw [List.foldlM_cons] at hfold
    by_cases hk : cm.k = "vm"
    case neg =>
      have hstep : processVMstep st cm = .ok st := by simp [processVMstep, hk]
      rw [hstep, okBind] at hfold
      rw [List.filter_cons_of_neg (by simpa using hk)]
      exact ih st st' B hfold hperm hsub hrnd hnv hB
        (fun c hc hkc => hfresh c (List.mem_cons_of_mem _ hc) hkc)
        (by rwa [List.filter_cons_of_neg (by simpa using hk)] at hpnodup)
    case pos =>
      obtain ⟨hpNS, hpB⟩ := hfresh cm (List.mem_cons_self _ _) hk
      rw [List.filter_cons_of_pos (by simpa using hk)] at hpnodup ⊢
      simp only [List.map_cons, List.nodup_cons] at hpnodup
      obtain ⟨hpnotin, hpnodup2⟩ := hpnodup
      simp only [List.map_cons]
      have hfresh2 : ∀ c ∈ rest, c.k = "vm" →
          Expr.sym c.sy ∉ NS ∧ Expr.sym c.sy ∉ B ++ [Expr.sym cm.sy] := by
        intro c hc hkc
        refine ⟨(hfresh c (List.mem_cons_of_mem _ hc) hkc).1, ?_⟩
        intro hmem
        rcases List.mem_append.mp hmem with h1 | h2
        · exact (hfresh c (List.mem_cons_of_mem _ hc) hkc).2 h1
        · rw [List.mem_singleton] at h2
          apply hpnotin
          rw [← h2]
          exact List.mem_map_of_mem _ (List.mem_filter.mpr ⟨hc, by simpa using hkc⟩)
      have hBp : ∀ x ∈ B ++ [Expr.sym cm.sy], (∃ s, x = Expr.sym s) ∧ x ∉ NS := by
        intro x hx
        rcases List.mem_append.mp hx with h1 | h2
        · exact hB x h1
        · rw [List.mem_singleton] at h2
          subst h2
          exact ⟨⟨cm.sy, rfl⟩, hpNS⟩
      have happ : B ++ (Expr.sym cm.sy ::
            (rest.filter (fun c => c.k = "vm")).map (fun c => Expr.sym c.sy)) =
          (B ++ [Expr.sym cm.sy]) ++
            (rest.filter (fun c => c.k = "vm")).map (fun c => Expr.sym c.sy) := by
        simp
      obtain ⟨hins, hperm1⟩ := insertU_perm_inv hperm hpNS hpB
      by_cases hn1 : cm.n1 = 0
      · cases hv : List.lookup cm.n2 st.nodeVars with
        | none =>
          exfalso
          have hstep : processVMstep st cm = .error .keyError := by
            simp [processVMstep, hk, hn1, nvGet, hv, errBind, okBind]
          rw [hstep] at hfold
          exact absurd hfold (by simp [errBind])
        | some v =>
          by_cases hmem : v ∈ insertU st.unknowns (Expr.sym cm.sy)
          · have hstep : processVMstep st cm = .ok
                ⟨st.components, st.subsDic, st.nameT, st.symbolT,
                 st.equations.map (fun e => e.subsE v (Expr.negE (Expr.sym cm.sy))),
                 (insertU st.unknowns (Expr.sym cm.sy)).erase v,
                 st.nodeList, st.nodeVars, st.removed ++ [v]⟩ := by
              simp [processVMstep, hk, hn1, nvGet, hv, substEqs, hmem, okBind]
            rw [hstep, okBind] at hfold
            obtain ⟨hvNS, hvrem, hperm2, hsub2, hrnd2⟩ :=
              probe_erase_inv hNS hperm hsub hrnd hB ⟨cm.sy, rfl⟩ hpNS hpB
                (hnv cm.n2 v hv) hmem
            have hres := ih _ st' (B ++ [Expr.sym cm.sy]) hfold hperm2 hsub2 hrnd2
              hnv hBp hfresh2 hpnodup2
            rw [happ]
            exact hres
          · have hstep : processVMstep st cm = .ok
                ⟨st.components, st.subsDic, st.nameT, st.symbolT,
                 st.equations.map (fun e => e.subsE v (Expr.negE (Expr.sym cm.sy))) ++
                   [Expr.eqE (Expr.sym cm.sy) v],
                 insertU st.unknowns (Expr.sym cm.sy),
                 st.nodeList, st.nodeVars, st.removed⟩ := by
              simp [processVMstep, hk, hn1, nvGet, hv, substEqs, hmem, okBind]
            rw [hstep, okBind] at hfold
            have hres := ih _ st' (B ++ [Expr.sym cm.sy]) hfold
              (hins.symm ▸ hperm1) hsub hrnd hnv hBp hfresh2 hpnodup2
            rw [happ]
            exact hres
      · by_cases hn2 : cm.n2 = 0
        · cases hv : List.lookup cm.n1 st.nodeVars with
          | none =>
            exfalso
            have hstep : processVMstep st cm = .error .keyError := by
              simp [processVMstep, hk, hn1, hn2, nvGet, hv, errBind, okBind]
            rw [hstep] at hfold
            exact absurd hfold (by simp [errBind])
          | some v =>
            by_cases hmem : v ∈ insertU st.unknowns (Expr.sym cm.sy)
            · have hstep : processVMstep st cm = .ok
                  ⟨st.components, st.subsDic, st.nameT, st.symbolT,
                   st.equations.map (fun e => e.subsE v (Expr.sym cm.sy)),
                   (insertU st.unknowns (Expr.sym cm.sy)).erase v,
                   st.nodeList, st.nodeVars, st.removed ++ [v]⟩ := by
                simp [processVMstep, hk, hn1, hn2, nvGet, hv, substEqs, hmem, okBind]
              rw [hstep, okBind] at hfold
              obtain ⟨hvNS, hvrem, hperm2, hsub2, hrnd2⟩ :=
                probe_erase_inv hNS hperm hsub hrnd hB ⟨cm.sy, rfl⟩ hpNS hpB
                  (hnv cm.n1 v hv) hmem
              have hres := ih _ st' (B ++ [Expr.sym cm.sy]) hfold hperm2 hsub2 hrnd2
                hnv hBp hfresh2 hpnodup2
              rw [happ]
              exact hres
            · have hstep : processVMstep st cm = .ok
                  ⟨st.components, st.subsDic, st.nameT, st.symbolT,
                   st.equations.map (fun e => e.subsE v (Expr.sym cm.sy)) ++
                     [Expr.eqE (Expr.sym cm.sy) v],
                   insertU st.unknowns (Expr.sym cm.sy),
                   st.nodeList, st.nodeVars, st.removed⟩ := by
                simp [processVMstep, hk, hn1, hn2, nvGet, hv, substEqs, hmem, okBind]
              rw [hstep, okBind] at hfold
              have hres := ih _ st' (B ++ [Expr.sym cm.sy]) hfold
                (hins.symm ▸ hperm1) hsub hrnd hnv hBp hfresh2 hpnodup2
              rw [happ]
              exact hres
        · cases hv1 : List.lookup cm.n1 st.nodeVars with
          | none =>
            exfalso
            have hstep : processVMstep st cm = .error .keyError := by
              simp [processVMstep, hk, hn1, hn2, nvGet, hv1, errBind, okBind]
            rw [hstep] at hfold
            exact absurd hfold (by simp [errBind])
          | some v1 =>
            cases hv2 : List.lookup cm.n2 st.nodeVars with
            | none =>
              exfalso
              have hstep : processVMstep st cm = .error .keyError := by
                simp [processVMstep, hk, hn1, hn2, nvGet, hv1, hv2, errBind, okBind]
              rw [hstep] at hfold
              exact absurd hfold (by simp [errBind])
            | some v2 =>
              have hstep : processVMstep st cm = .ok
                  ⟨st.components, st.subsDic, st.nameT, st.symbolT,
                   st.equations ++ [Expr.eqE (Expr.sym cm.sy) (Expr.sub v1 v2)],
                   insertU st.unknowns (Expr.sym cm.sy),
                   st.nodeList, st.nodeVars, st.removed⟩ := by
                simp [processVMstep, hk, hn1, hn2, nvGet, hv1, hv2, okBind]
              rw [hstep, okBind] at hfold
              have hres := ih _ st' (B ++ [Expr.sym cm.sy]) hfold
                (hins.symm ▸ hperm1) hsub hrnd hnv hBp hfresh2 hpnodup2
              rw [happ]
              exact hres

/-- C8: for every circuit that `solve()`'s equation-building pipeline
processes to completion (no exception), and whose created symbols are
pairwise distinct (as with distinctly named components), every
node-voltage unknown is either recorded as eliminated by exactly one
reduction-pass substitution (the `removed` instrumentation is
duplicate-free and drawn from the node symbols) or remains in the final
unknown set — exactly one of the two — and the final unknown-set size
equals (number of non-ground node symbols not eliminated) + (number of
branch-current symbols) + (number of probe symbols, none of which is ever
absorbed). -/
theorem claim_C8_thm (c : Circuit) (st : SState)
    (hok : solveStages c = .ok st)
    (hdis : (nodeSymsOf c ++ isymsOf c ++ imSymsOf c ++ vmSymsOf c).Nodup) :
    (∀ r ∈ st.removed, r ∈ nodeSymsOf c) ∧ st.removed.Nodup ∧
    (∀ v ∈ nodeSymsOf c,
       (v ∈ st.removed ∧ v ∉ st.unknowns) ∨ (v ∉ st.removed ∧ v ∈ st.unknowns)) ∧
    st.unknowns.length + st.removed.length =
      (nodeSymsOf c).length + (isymsOf c).length +
        ((imSymsOf c).length + (vmSymsOf c).length) := by
  -- decompose the distinctness hypothesis
  have h1 := List.nodup_append.mp hdis
  have h2 := List.nodup_append.mp h1.1
  have h3 := List.nodup_append.mp h2.1
  have hNS : (nodeSymsOf c).Nodup := h3.1
  have hIso : (isymsOf c).Nodup := h3.2.1
  have hImo : (imSymsOf c).Nodup := h2.2.1
  have hVmo : (vmSymsOf c).Nodup := h1.2.1
  have hdisAI : ∀ x ∈ isymsOf c, x ∉ nodeSymsOf c := by
    intro x hx hmem
    exact h3.2.2 hmem hx
  have hdisIm : ∀ x ∈ imSymsOf c, x ∉ nodeSymsOf c ∧ x ∉ isymsOf c := by
    intro x hx
    constructor
    · intro hmem
      exact h2.2.2 (List.mem_append.mpr (Or.inl hmem)) hx
    · intro hmem
      exact h2.2.2 (List.mem_append.mpr (Or.inr hmem)) hx
  have hdisVm : ∀ x ∈ vmSymsOf c,
      x ∉ nodeSymsOf c ∧ x ∉ isymsOf c ∧ x ∉ imSymsOf c := by
    intro x hx
    refine ⟨?_, ?_, ?_⟩
    · intro hmem
      exact h1.2.2 (List.mem_append.mpr (Or.inl (List.mem_append.mpr (Or.inl hmem)))) hx
    · intro hmem
      exact h1.2.2 (List.mem_append.mpr (Or.inl (List.mem_append.mpr (Or.inr hmem)))) hx
    · intro hmem
      exact h1.2.2 (List.mem_append.mpr (Or.inr hmem)) hx
  have hIsym : ∀ v ∈ isymsOf c, ∃ s, v = Expr.sym s := by
    intro v hv
    obtain ⟨cm, _, rfl⟩ := List.mem_map.mp hv
    exact ⟨_, rfl⟩
  -- destructure the pipeline
  by_cases hc0 : c.components = []
  · exfalso
    have hn := (claim_C6_thm c).1 hc0
    rw [hn.2] at hok
    exact absurd hok (by simp)
  have hn : numNodes (initState c) =
      .ok ⟨c.components, c.subsDic, c.nameT, c.symbolT, [], [], nodesOf c.components, [], []⟩ := by
    simp [numNodes, initState, hc0]
  have hnil : nodesOf c.components ≠ [] := nodesOf_ne_nil hc0
  by_cases hz : (0 : ℤ) ∈ nodesOf c.components
  case neg =>
    exfalso
    have hnv : nodeVariables
        (⟨c.components, c.subsDic, c.nameT, c.symbolT, [], [],
          nodesOf c.components, [], []⟩ : SState) =
        .error (.circuitEx "No 0 node in circuit") := by
      simp [nodeVariables, hnil, hz]
    rw [solveStages] at hok
    rw [hn, okBind, hnv] at hok
    exact absurd hok (by simp [errBind])
  case pos =>
    have hnv : nodeVariables
        (⟨c.components, c.subsDic, c.nameT, c.symbolT, [], [],
          nodesOf c.components, [], []⟩ : SState) =
        .ok ((nodesOf c.components).foldl nvStep
          ⟨c.components, c.subsDic, c.nameT, c.symbolT, [], [],
           nodesOf c.components, [], []⟩) := by
      simp [nodeVariables, hnil, hz]
    rw [solveStages] at hok
    rw [hn, okBind, hnv, okBind] at hok
    set st2 : SState := (nodesOf c.components).foldl nvStep
      ⟨c.components, c.subsDic, c.nameT, c.symbolT, [], [],
       nodesOf c.components, [], []⟩ with hst2
    have hok2 : (processIM (addVequations (addKCLequations st2)) >>= fun st5 =>
        processVM st5 >>= fun st6 => Except.ok (processCtr st6)) = Except.ok st := hok
    clear hok
    -- the fields of st2
    have hF2 := nv_fold_fields (nodesOf c.components)
      ⟨c.components, c.subsDic, c.nameT, c.symbolT, [], [], nodesOf c.components, [], []⟩
    have hu2 : st2.unknowns = nodeSymsOf c := by
      rw [hst2, hF2.1]
      show List.foldl insertU [] (nodeSymsOf c) = nodeSymsOf c
      rw [foldl_insertU_of_fresh (nodeSymsOf c) [] hNS (by intro x _ hx; simp at hx)]
      simp
    have hv2 : st2.nodeVars =
        ((nodesOf c.components).filter (fun n => n ≠ 0)).map
          (fun n => (n, Expr.sym ("v" ++ toString n))) := by
      rw [hst2, hF2.2.1]
      show ([] : List (ℤ × Expr)) ++ _ = _
      simp
    have hr2 : st2.removed = [] := by
      rw [hst2, hF2.2.2.1]
    have hc2 : st2.components = c.components := by
      rw [hst2, hF2.2.2.2.1]
    -- the fields of st3 = addKCLequations st2 and st4 = addVequations st3
    have hK := kcl_fold_fields st2.nodeList st2
    have hu3 : (addKCLequations st2).unknowns = st2.unknowns := hK.1
    have hv3 : (addKCLequations st2).nodeVars = st2.nodeVars := hK.2.1
    have hr3 : (addKCLequations st2).removed = st2.removed := hK.2.2.1
    have hc3 : (addKCLequations st2).components = st2.components := hK.2.2.2
    have hV := vs_fold_fields (addKCLequations st2).components (addKCLequations st2)
    have hu4a : (addVequations (addKCLequations st2)).unknowns =
        List.foldl insertU (addKCLequations st2).unknowns
          (((addKCLequations st2).components.filter
            (fun cm => cm.k = "vs" ∨ cm.k = "cvs")).map
            (fun cm => Expr.sym (cm.isy.getD ""))) := hV.1
    have hv4 : (addVequations (addKCLequations st2)).nodeVars =
        ((nodesOf c.components).filter (fun n => n ≠ 0)).map
          (fun n => (n, Expr.sym ("v" ++ toString n))) := by
      rw [show (addVequations (addKCLequations st2)).nodeVars =
        (addKCLequations st2).nodeVars from hV.2.1, hv3, hv2]
    have hr4 : (addVequations (addKCLequations st2)).removed = [] := by
      rw [show (addVequations (addKCLequations st2)).removed =
        (addKCLequations st2).removed from hV.2.2.1, hr3, hr2]
    have hc4 : (addVequations (addKCLequations st2)).components = c.components := by
      rw [show (addVequations (addKCLequations st2)).components =
        (addKCLequations st2).components from hV.2.2.2, hc3, hc2]
    have hu4 : (addVequations (addKCLequations st2)).unknowns =
        nodeSymsOf c ++ isymsOf c := by
      rw [hu4a, hu3, hu2, hc3, hc2]
      show List.foldl insertU (nodeSymsOf c) (isymsOf c) = nodeSymsOf c ++ isymsOf c
      exact foldl_insertU_of_fresh _ _ hIso hdisAI
    -- current-probe pass
    cases him : processIM (addVequations (addKCLequations st2)) with
    | error e =>
      rw [him] at hok2
      exact absurd hok2 (by simp [errBind])
    | ok st5 =>
      rw [him, okBind] at hok2
      have him' : List.foldlM processIMstep (addVequations (addKCLequations st2))
          c.components = .ok st5 := by
        rw [← hc4]
        exact him
      have hres5 := processIM_go (nodeSymsOf c) hNS c.components
        (addVequations (addKCLequations st2)) st5 (isymsOf c)
        him'
        (by
          rw [hu4, hr4]
          have hfe : (nodeSymsOf c).filter (fun v => v ∉ ([] : List Expr)) =
              nodeSymsOf c := by simp
          rw [hfe])
        (by rw [hr4]; intro r hr; simp at hr)
        (by rw [hr4]; exact List.nodup_nil)
        (by
          rw [hv4]
          intro n w hlk
          right
          have hw := lookup_some_mem_values _ n w hlk
          rw [List.map_map] at hw
          simpa [nodeSymsOf, Function.comp] using hw)
        (fun v hv => ⟨hIsym v hv, hdisAI v hv⟩)
        (by
          intro cm hcm hkc
          have hmem : Expr.sym cm.sy ∈ imSymsOf c :=
            List.mem_map_of_mem _ (List.mem_filter.mpr ⟨hcm, by simpa using hkc⟩)
          exact ⟨(hdisIm _ hmem).1, (hdisIm _ hmem).2⟩)
        hImo
      obtain ⟨hperm5, hsub5, hrnd5, hnv5, hcomp5⟩ := hres5
      have hcomp5' : st5.components = c.components := by rw [hcomp5, hc4]
      -- voltage-probe pass
      cases hvmc : processVM st5 with
      | error e =>
        rw [hvmc] at hok2
        exact absurd hok2 (by simp [errBind])
      | ok st6 =>
        rw [hvmc, okBind] at hok2
        have hvm' : List.foldlM processVMstep st5 c.components = .ok st6 := by
          rw [← hcomp5']
          exact hvmc
        have hres6 := processVM_go (nodeSymsOf c) hNS c.components st5 st6
          (isymsOf c ++ imSymsOf c)
          hvm' hperm5 hsub5 hrnd5 hnv5
          (by
            intro v hv
            rcases List.mem_append.mp hv with hi | hm
            · exact ⟨hIsym v hi, hdisAI v hi⟩
            · obtain ⟨cm, _, rfl⟩ := List.mem_map.mp hm
              exact ⟨⟨_, rfl⟩, (hdisIm _ hm).1⟩)
          (by
            intro cm hcm hkc
            have hmem : Expr.sym cm.sy ∈ vmSymsOf c :=
              List.mem_map_of_mem _ (List.mem_filter.mpr ⟨hcm, by simpa using hkc⟩)
            obtain ⟨hw1, hw2, hw3⟩ := hdisVm _ hmem
            refine ⟨hw1, ?_⟩
            intro hx
            rcases List.mem_append.mp hx with hxa | hxb
            · exact hw2 hxa
            · exact hw3 hxb)
          hVmo
        obtain ⟨hperm6, hsub6, hrnd6, _, _⟩ := hres6
        -- controlled-source pass changes only equations
        have hst' : st = processCtr st6 := (Except.ok.inj hok2).symm
        have hC := ctr_fold_fields st6.components st6
        have hu7 : st.unknowns = st6.unknowns := by rw [hst']; exact hC.1
        have hr7 : st.removed = st6.removed := by rw [hst']; exact hC.2.2.1
        rw [hu7, hr7]
        -- final bookkeeping
        have hBfin : ∀ x ∈ (isymsOf c ++ imSymsOf c) ++ vmSymsOf c,
            x ∉ nodeSymsOf c := by
          intro x hx
          rcases List.mem_append.mp hx with hab | hc'
          · rcases List.mem_append.mp hab with ha | hb
            · exact hdisAI x ha
            · exact (hdisIm x hb).1
          · exact (hdisVm x hc').1
        refine ⟨hsub6, hrnd6, ?_, ?_⟩
        · intro v hvNS
          by_cases hvr : v ∈ st6.removed
          · left
            refine ⟨hvr, ?_⟩
            intro hvu
            rcases List.mem_append.mp (hperm6.mem_iff.mp hvu) with hf | hb
            · have hnr := (List.mem_filter.mp hf).2
              simp only [decide_not, Bool.not_eq_true', decide_eq_false_iff_not] at hnr
              exact hnr hvr
            · exact hBfin v hb hvNS
          · right
            refine ⟨hvr, ?_⟩
            apply hperm6.mem_iff.mpr
            apply List.mem_append.mpr
            left
            exact List.mem_filter.mpr ⟨hvNS, by simpa using hvr⟩
        · have hlen := hperm6.length_eq
          have hvm : (c.components.filter (fun cmx => cmx.k = "vm")).map
              (fun cmx => Expr.sym cmx.sy) = vmSymsOf c := rfl
          rw [hvm] at hlen
          simp only [List.length_append] at hlen
          have hflen := length_filter_notin st6.removed (nodeSymsOf c) hNS hrnd6 hsub6
          omega

/-- A divider with a grounded current probe: the probe eliminates `v2`. -/
def circuitW : Circuit :=
  (((Circuit.empty.addV "V1" 1 0 (some 10)).addR "R1" 1 2 (some 1000)).addIM "M1" 2 0)

/-- The state `solve()`'s pipeline reaches on `circuitW`. -/
def stW : SState := (solveStages circuitW).toOption.getD (initState circuitW)

/-- C8 (witness): the unknown-set bookkeeping at the concrete circuit
`circuitW` (two non-ground nodes, one branch current, one probe, one
elimination), with both hypotheses checked by evaluation. -/
theorem claim_C8_witness :
    (∀ r ∈ stW.removed, r ∈ nodeSymsOf circuitW) ∧ stW.removed.Nodup ∧
    (∀ v ∈ nodeSymsOf circuitW,
       (v ∈ stW.removed ∧ v ∉ stW.unknowns) ∨ (v ∉ stW.removed ∧ v ∈ stW.unknowns)) ∧
    stW.unknowns.length + stW.removed.length =
      (nodeSymsOf circuitW).length + (isymsOf circuitW).length +
        ((imSymsOf circuitW).length + (vmSymsOf circuitW).length) :=
  claim_C8_thm circuitW stW (by decide) (by decide)
